import Mathlib

/-!
Shallow embedding of the storage-and-concurrency core of the repository:
the LRU replacer (src/buffer/lru_replacer.cpp), the buffer pool instance
(src/buffer/buffer_pool_manager_instance.cpp), the extendible hash table
(src/container/hash/extendible_hash_table.cpp together with
src/storage/page/hash_table_directory_page.cpp and
src/storage/page/hash_table_bucket_page.cpp), and the lock manager
(src/concurrency/lock_manager.cpp).

Machine integers are modelled as Nat; page data is abstracted to a single
Nat value per page; the injected hash function is a parameter, as in the
C++ template.  BUCKET_ARRAY_SIZE is not defined under src/ (its header is
absent); following the specification it is treated as a configuration
parameter `bsize` of the model.
-/

namespace LRU

/-- State of LRUReplacer: `capacity_` and `lru_list_` (front = most recently
unpinned, back = least recently unpinned; `lru_hash_` is membership in the
list and is left implicit). -/
structure Replacer where
  capacity : Nat
  lst : List Nat
deriving DecidableEq, Repr

/-- LRUReplacer::Victim: if the list is empty fail, otherwise remove and
return the back (least recently unpinned) element. -/
def Replacer.victim (r : Replacer) : Option Nat × Replacer :=
  match r.lst.getLast? with
  | none => (none, r)
  | some f => (some f, { r with lst := r.lst.dropLast })

/-- LRUReplacer::Pin: if the frame is not present do nothing; otherwise
remove it (std::list::remove erases all occurrences). -/
def Replacer.pin (r : Replacer) (f : Nat) : Replacer :=
  if f ∈ r.lst then { r with lst := r.lst.filter (fun x => x != f) } else r

/-- LRUReplacer::Unpin: no-op if already present; if at capacity evict the
back first; then push the frame at the front. -/
def Replacer.unpin (r : Replacer) (f : Nat) : Replacer :=
  if f ∈ r.lst then r
  else
    let r1 := if r.capacity = r.lst.length then { r with lst := r.lst.dropLast } else r
    { r1 with lst := f :: r1.lst }

/-- LRUReplacer::Size. -/
def Replacer.size (r : Replacer) : Nat := r.lst.length

end LRU

namespace BPool

/-- A Page object of the buffer pool: `page_id_` (`none` = INVALID_PAGE_ID),
`pin_count_`, `is_dirty_`, and the data bytes abstracted to one Nat. -/
structure Frame where
  pid : Option Nat
  pin : Nat
  dirty : Bool
  data : Nat
deriving DecidableEq, Repr

/-- A default-constructed Page: invalid id, pin count 0, clean, zero data. -/
def frameDefault : Frame := ⟨none, 0, false, 0⟩

/-- State of a BufferPoolManagerInstance plus its collaborating disk
manager.  `disk` is the backing file (association list page-id to data,
most recent write first); `deallocLog` records the page ids passed to
DiskManager::DeallocatePage, most recent first. -/
structure BPM where
  poolSize : Nat
  numInstances : Nat
  instanceIndex : Nat
  nextPageId : Nat
  frames : List Frame
  freeList : List Nat
  pageTable : List (Nat × Nat)
  repl : LRU.Replacer
  disk : List (Nat × Nat)
  deallocLog : List Nat
deriving DecidableEq, Repr

/-- Lookup in the page table (page id to frame id). -/
def ptLookup (pt : List (Nat × Nat)) (p : Nat) : Option Nat :=
  (pt.find? (fun e => e.1 == p)).map (fun e => e.2)

/-- Erase a page id from the page table. -/
def ptErase (pt : List (Nat × Nat)) (p : Nat) : List (Nat × Nat) :=
  pt.filter (fun e => e.1 != p)

/-- Insert (or overwrite) a page-table mapping. -/
def ptSet (pt : List (Nat × Nat)) (p f : Nat) : List (Nat × Nat) :=
  (p, f) :: ptErase pt p

/-- DiskManager::WritePage. -/
def diskWrite (d : List (Nat × Nat)) (p v : Nat) : List (Nat × Nat) :=
  (p, v) :: d

/-- DiskManager::ReadPage (a page never written reads as zero). -/
def diskRead (d : List (Nat × Nat)) (p : Nat) : Nat :=
  match d.find? (fun e => e.1 == p) with
  | some e => e.2
  | none => 0

/-- The BufferPoolManagerInstance constructor: `pool_size` frames, all on
the free list, next page id starting at `instance_index`. -/
def mkBPM (poolSize numInstances instanceIndex : Nat) : BPM :=
  { poolSize := poolSize
    numInstances := numInstances
    instanceIndex := instanceIndex
    nextPageId := instanceIndex
    frames := List.replicate poolSize frameDefault
    freeList := List.range poolSize
    pageTable := []
    repl := ⟨poolSize, []⟩
    disk := []
    deallocLog := [] }

/-- The shared frame-selection logic of NewPgImp and FetchPgImp (lines
99-113 and 145-160 are textually identical): take the free-list front if
any, else ask the replacer for a victim, writing the victim back if dirty
and erasing it from the page table. -/
def pickFrame (s : BPM) : Option (Nat × BPM) :=
  match s.freeList with
  | fid :: rest => some (fid, { s with freeList := rest })
  | [] =>
    match s.repl.victim with
    | (some fid, r') =>
      let fr := s.frames.getD fid frameDefault
      let s1 := { s with repl := r' }
      let s2 := if fr.dirty then { s1 with disk := diskWrite s1.disk (fr.pid.getD 0) fr.data } else s1
      some (fid, { s2 with pageTable := ptErase s2.pageTable (fr.pid.getD 0) })
    | (none, _) => none

/-- BufferPoolManagerInstance::AllocatePage: return the counter and advance
it by `num_instances`. -/
def allocatePage (s : BPM) : Nat × BPM :=
  (s.nextPageId, { s with nextPageId := s.nextPageId + s.numInstances })

/-- NewPgImp: fail if every frame is pinned; otherwise pick a frame,
allocate a fresh page id, reset the frame (`pin_count = 1`, clean, zeroed
memory), install the page-table mapping and pin the frame in the
replacer. -/
def newPg (s : BPM) : Option Nat × BPM :=
  if s.frames.all (fun f => f.pin != 0) then (none, s)
  else
    match pickFrame s with
    | none => (none, s)
    | some (fid, s1) =>
      let (pid, s2) := allocatePage s1
      let fr := s2.frames.getD fid frameDefault
      let fr' := { fr with pid := some pid, dirty := false, pin := 1, data := 0 }
      (some pid,
        { s2 with frames := s2.frames.set fid fr'
                  pageTable := ptSet s2.pageTable pid fid
                  repl := s2.repl.pin fid })

/-- FetchPgImp: if resident, bump the pin count, pin in the replacer and
return the page's data; otherwise pick a frame (write-back as needed), read
the page from disk into it, install the mapping and return the data. -/
def fetchPg (s : BPM) (pid : Nat) : Option Nat × BPM :=
  match ptLookup s.pageTable pid with
  | some fid =>
    let fr := s.frames.getD fid frameDefault
    let fr' := { fr with pin := fr.pin + 1 }
    (some fr.data,
      { s with frames := s.frames.set fid fr', repl := s.repl.pin fid })
  | none =>
    match pickFrame s with
    | none => (none, s)
    | some (fid, s1) =>
      let d := diskRead s1.disk pid
      let fr' : Frame := { pid := some pid, pin := 1, dirty := false, data := d }
      (some d,
        { s1 with frames := s1.frames.set fid fr'
                  pageTable := ptSet s1.pageTable pid fid
                  repl := s1.repl.pin fid })

/-- UnpinPgImp: fail if the page is not resident or its pin count is
already zero; otherwise decrement, OR the dirty hint into the dirty bit,
and hand the frame to the replacer when the pin count reaches zero. -/
def unpinPg (s : BPM) (pid : Nat) (dirtyHint : Bool) : Bool × BPM :=
  match ptLookup s.pageTable pid with
  | none => (false, s)
  | some fid =>
    let fr := s.frames.getD fid frameDefault
    if fr.pin = 0 then (false, s)
    else
      let fr1 := { fr with pin := fr.pin - 1, dirty := if dirtyHint then true else fr.dirty }
      let s1 := { s with frames := s.frames.set fid fr1 }
      let s2 := if fr1.pin = 0 then { s1 with repl := s1.repl.unpin fid } else s1
      (true, s2)

/-- FlushPgImp: fail if not resident; otherwise write the frame's data
through the disk manager and clear the dirty bit. -/
def flushPg (s : BPM) (pid : Nat) : Bool × BPM :=
  match ptLookup s.pageTable pid with
  | none => (false, s)
  | some fid =>
    let fr := s.frames.getD fid frameDefault
    (true,
      { s with disk := diskWrite s.disk (fr.pid.getD 0) fr.data
               frames := s.frames.set fid { fr with dirty := false } })

/-- DeletePgImp: always call the disk manager's DeallocatePage hook first;
if the page is not resident succeed trivially; if it is pinned fail;
otherwise write back if dirty, clear the frame, and return it to the free
list. -/
def deletePg (s : BPM) (pid : Nat) : Bool × BPM :=
  let s0 := { s with deallocLog := pid :: s.deallocLog }
  match ptLookup s0.pageTable pid with
  | none => (true, s0)
  | some fid =>
    let fr := s0.frames.getD fid frameDefault
    if 0 < fr.pin then (false, s0)
    else
      let s1 := if fr.dirty then { s0 with disk := diskWrite s0.disk (fr.pid.getD 0) fr.data } else s0
      (true,
        { s1 with pageTable := ptErase s1.pageTable (fr.pid.getD 0)
                  repl := s1.repl.pin fid
                  frames := s1.frames.set fid frameDefault
                  freeList := s1.freeList ++ [fid] })

/-- The caller of the buffer pool mutating the bytes of a pinned page
through the borrowed Page pointer (a collaborator action, not a buffer
pool operation). -/
def writeData (s : BPM) (pid v : Nat) : BPM :=
  match ptLookup s.pageTable pid with
  | none => s
  | some fid =>
    let fr := s.frames.getD fid frameDefault
    { s with frames := s.frames.set fid { fr with data := v } }

/-- Well-formedness of a pool state: the frame array has `poolSize`
entries, free-list and replacer entries are valid unpinned frames, and
every unpinned frame is on the free list or in the replacer. -/
def wf (s : BPM) : Prop :=
  s.frames.length = s.poolSize ∧
  (∀ f ∈ s.freeList, f < s.poolSize ∧ (s.frames.getD f frameDefault).pin = 0) ∧
  (∀ f ∈ s.repl.lst, f < s.poolSize ∧ (s.frames.getD f frameDefault).pin = 0) ∧
  (∀ i, i < s.poolSize → (s.frames.getD i frameDefault).pin = 0 →
    i ∈ s.freeList ∨ i ∈ s.repl.lst)

instance (s : BPM) : Decidable (wf s) := by
  unfold wf
  exact inferInstance

end BPool

namespace ExtHash

/-- A hash table bucket page (HashTableBucketPage): the `occupied_` and
`readable_` bitmaps (as Nat bit patterns) and the flat key/value array. -/
structure Bucket where
  occupied : Nat
  readable : Nat
  arr : List (Nat × Nat)
deriving DecidableEq, Repr

/-- A freshly allocated (zeroed) bucket page of capacity `bsize`; also the
result of HashTableBucketPage::Clear (memset to zero). -/
def Bucket.clear (bsize : Nat) : Bucket :=
  ⟨0, 0, List.replicate bsize (0, 0)⟩

def Bucket.isOccupied (b : Bucket) (i : Nat) : Bool := b.occupied.testBit i

def Bucket.isReadable (b : Bucket) (i : Nat) : Bool := b.readable.testBit i

def Bucket.keyAt (b : Bucket) (i : Nat) : Nat := (b.arr.getD i (0, 0)).1

def Bucket.valueAt (b : Bucket) (i : Nat) : Nat := (b.arr.getD i (0, 0)).2

def Bucket.setOccupied (b : Bucket) (i : Nat) : Bucket :=
  { b with occupied := b.occupied ||| (1 <<< i) }

def Bucket.setReadable (b : Bucket) (i : Nat) : Bucket :=
  { b with readable := b.readable ||| (1 <<< i) }

/-- HashTableBucketPage::RemoveAt: clear the readable bit, leaving the
occupied bit set (tombstone). -/
def Bucket.removeAt (b : Bucket) (i : Nat) : Bucket :=
  { b with readable := b.readable ^^^ (b.readable &&& (1 <<< i)) }

/-- The scan of HashTableBucketPage::GetValue from slot `i` with `n` slots
remaining: stop at the first non-occupied slot, collect the values of
readable slots whose key matches. -/
def Bucket.getValueLoop (b : Bucket) (key : Nat) : Nat → Nat → List Nat
  | _, 0 => []
  | i, n + 1 =>
    if !(b.isOccupied i) then []
    else
      let rest := b.getValueLoop key (i + 1) n
      if b.isReadable i && (b.keyAt i == key) then b.valueAt i :: rest else rest

/-- HashTableBucketPage::GetValue: the collected values and whether any
match was found. -/
def Bucket.getValue (bsize : Nat) (b : Bucket) (key : Nat) : List Nat × Bool :=
  let l := b.getValueLoop key 0 bsize
  (l, !(l.isEmpty))

/-- The single scan of HashTableBucketPage::Insert: record the first free
slot (not readable, or not occupied), break at the first non-occupied
slot, and fail on a duplicate (key, value) pair.  Returns `none` for a
duplicate, otherwise the recorded free slot (if any). -/
def Bucket.insertLoop (b : Bucket) (k v : Nat) : Option Nat → Nat → Nat → Option (Option Nat)
  | free, _, 0 => some free
  | free, i, n + 1 =>
    let free' := if free.isNone && (!(b.isReadable i) || !(b.isOccupied i)) then some i else free
    if !(b.isOccupied i) then some free'
    else if b.isReadable i && (b.keyAt i == k) && (b.valueAt i == v) then none
    else b.insertLoop k v free' (i + 1) n

/-- HashTableBucketPage::Insert. -/
def Bucket.insert (bsize : Nat) (b : Bucket) (k v : Nat) : Bucket × Bool :=
  match b.insertLoop k v none 0 bsize with
  | none => (b, false)
  | some none => (b, false)
  | some (some fi) =>
    ((({ b with arr := b.arr.set fi (k, v) }).setOccupied fi).setReadable fi, true)

/-- The scan of HashTableBucketPage::Remove: find the first readable slot
matching (key, value), stopping at the first non-occupied slot. -/
def Bucket.removeLoop (b : Bucket) (k v : Nat) : Nat → Nat → Option Nat
  | _, 0 => none
  | i, n + 1 =>
    if !(b.isOccupied i) then none
    else if b.isReadable i && (b.keyAt i == k) && (b.valueAt i == v) then some i
    else b.removeLoop k v (i + 1) n

/-- HashTableBucketPage::Remove. -/
def Bucket.remove (bsize : Nat) (b : Bucket) (k v : Nat) : Bucket × Bool :=
  match b.removeLoop k v 0 bsize with
  | none => (b, false)
  | some i => (b.removeAt i, true)

/-- The scan of HashTableBucketPage::NumReadable. -/
def Bucket.numReadableLoop (b : Bucket) : Nat → Nat → Nat → Nat
  | acc, _, 0 => acc
  | acc, i, n + 1 =>
    if !(b.isOccupied i) then acc
    else b.numReadableLoop (if b.isReadable i then acc + 1 else acc) (i + 1) n

def Bucket.numReadable (bsize : Nat) (b : Bucket) : Nat :=
  b.numReadableLoop 0 0 bsize

def Bucket.isFull (bsize : Nat) (b : Bucket) : Bool :=
  b.numReadable bsize == bsize

def Bucket.isEmpty (bsize : Nat) (b : Bucket) : Bool :=
  b.numReadable bsize == 0

/-- The scan of HashTableBucketPage::GetArrayCopy: the readable entries in
slot order, stopping at the first non-occupied slot. -/
def Bucket.copyLoop (b : Bucket) : Nat → Nat → List (Nat × Nat)
  | _, 0 => []
  | i, n + 1 =>
    if !(b.isOccupied i) then []
    else
      let rest := b.copyLoop (i + 1) n
      if b.isReadable i then (b.keyAt i, b.valueAt i) :: rest else rest

def Bucket.getArrayCopy (bsize : Nat) (b : Bucket) : List (Nat × Nat) :=
  b.copyLoop 0 bsize

/-- HashTableDirectoryPage: `global_depth_` and the two parallel arrays of
length DIRECTORY_ARRAY_SIZE = 1 << MAX_BUCKET_DEPTH = 512, of which only
the first `1 << global_depth_` slots are live. -/
structure Dir where
  globalDepth : Nat
  bucketPageIds : List Nat
  localDepths : List Nat
deriving DecidableEq, Repr

def dirArraySize : Nat := 512

def Dir.size (d : Dir) : Nat := 1 <<< d.globalDepth

def Dir.globalDepthMask (d : Dir) : Nat := (1 <<< d.globalDepth) - 1

def Dir.getBucketPageId (d : Dir) (i : Nat) : Nat := d.bucketPageIds.getD i 0

def Dir.setBucketPageId (d : Dir) (i p : Nat) : Dir :=
  { d with bucketPageIds := d.bucketPageIds.set i p }

def Dir.getLocalDepth (d : Dir) (i : Nat) : Nat := d.localDepths.getD i 0

def Dir.setLocalDepth (d : Dir) (i ld : Nat) : Dir :=
  { d with localDepths := d.localDepths.set i ld }

def Dir.incrLocalDepth (d : Dir) (i : Nat) : Dir :=
  d.setLocalDepth i (d.getLocalDepth i + 1)

def Dir.decrLocalDepth (d : Dir) (i : Nat) : Dir :=
  d.setLocalDepth i (d.getLocalDepth i - 1)

/-- HashTableDirectoryPage::GetSplitImageIndex: flip the bit at position
`local_depth − 1`. -/
def Dir.getSplitImageIndex (d : Dir) (i : Nat) : Nat :=
  i ^^^ (1 <<< (d.getLocalDepth i - 1))

/-- HashTableDirectoryPage::IncrGlobalDepth: copy the live half of both
arrays into the following half, then increment `global_depth_`. -/
def Dir.incrGlobalDepth (d : Dir) : Dir :=
  let sz := d.size
  let d' := (List.range sz).foldl
    (fun acc i =>
      (acc.setBucketPageId (sz + i) (d.getBucketPageId i)).setLocalDepth
        (sz + i) (d.getLocalDepth i))
    d
  { d' with globalDepth := d.globalDepth + 1 }

def Dir.decrGlobalDepth (d : Dir) : Dir :=
  { d with globalDepth := d.globalDepth - 1 }

/-- HashTableDirectoryPage::CanShrink: no live slot has local depth equal
to the global depth. -/
def Dir.canShrink (d : Dir) : Bool :=
  (List.range d.size).all (fun i => d.getLocalDepth i != d.globalDepth)

/-- The invariant checked by HashTableDirectoryPage::VerifyIntegrity:
(1) every live local depth is at most the global depth, (2) each page id
appearing among the live slots is pointed at by exactly
2^(global_depth − local_depth) slots, and (3) all slots sharing a page id
share the local depth. -/
def Dir.checkIntegrity (d : Dir) : Bool :=
  (List.range d.size).all fun i =>
    decide (d.getLocalDepth i ≤ d.globalDepth) &&
    (((List.range d.size).filter
        (fun j => d.getBucketPageId j == d.getBucketPageId i)).length
      == 1 <<< (d.globalDepth - d.getLocalDepth i)) &&
    (List.range d.size).all fun j =>
      !(d.getBucketPageId j == d.getBucketPageId i) ||
        (d.getLocalDepth j == d.getLocalDepth i)

/-- State of an ExtendibleHashTable together with the portion of the
buffer pool it uses: the resident bucket pages (`pages`, keyed by page
id), the directory page, the next page id the buffer pool will allocate,
and the trace of UnpinPage calls (page id, dirty hint), most recent
first. -/
structure HT where
  pages : List (Nat × Bucket)
  dir : Dir
  dirPageId : Nat
  nextPageId : Nat
  unpins : List (Nat × Bool)
deriving DecidableEq, Repr

def findPage (ps : List (Nat × Bucket)) (pid : Nat) : Option Bucket :=
  (ps.find? (fun e => e.1 == pid)).map (fun e => e.2)

def pSet (ps : List (Nat × Bucket)) (pid : Nat) (b : Bucket) : List (Nat × Bucket) :=
  (pid, b) :: ps.filter (fun e => e.1 != pid)

def pDel (ps : List (Nat × Bucket)) (pid : Nat) : List (Nat × Bucket) :=
  ps.filter (fun e => e.1 != pid)

/-- The ExtendibleHashTable constructor: the buffer pool hands out page id
0 for the directory and page id 1 for the first bucket; directory slot 0
points at that bucket with all depths zero. -/
def mkTable (bsize : Nat) : HT :=
  { pages := [(1, Bucket.clear bsize)]
    dir :=
      { globalDepth := 0
        bucketPageIds := (List.replicate dirArraySize 0).set 0 1
        localDepths := List.replicate dirArraySize 0 }
    dirPageId := 0
    nextPageId := 2
    unpins := [] }

/-- ExtendibleHashTable::KeyToDirectoryIndex. -/
def keyToDirectoryIndex (hash : Nat → Nat) (d : Dir) (k : Nat) : Nat :=
  hash k &&& d.globalDepthMask

/-- ExtendibleHashTable::KeyToPageId. -/
def keyToPageId (hash : Nat → Nat) (d : Dir) (k : Nat) : Nat :=
  d.getBucketPageId (keyToDirectoryIndex hash d k)

/-- ExtendibleHashTable::GetValue: route through the directory, read the
bucket, unpin directory (clean) then bucket (clean). -/
def getValue (bsize : Nat) (hash : Nat → Nat) (s : HT) (k : Nat) :
    HT × (List Nat × Bool) :=
  let pid := keyToPageId hash s.dir k
  match findPage s.pages pid with
  | none => (s, ([], false))
  | some b =>
    let r := b.getValue bsize k
    ({ s with unpins := (pid, false) :: (s.dirPageId, false) :: s.unpins }, r)

/-- The down sweep of SplitInsert (`for (i = start; i >= diff; i -= diff)`),
setting the local depth to the split index's local depth and the page id
to `pid` at each visited slot.  The fuel is at least the iteration count. -/
def sweepDown (splitIdx pid diff : Nat) : Nat → Nat → Dir → Dir
  | 0, _, d => d
  | fuel + 1, i, d =>
    if diff ≤ i then
      let d' := (d.setLocalDepth i (d.getLocalDepth splitIdx)).setBucketPageId i pid
      sweepDown splitIdx pid diff fuel (i - diff) d'
    else d

/-- The up sweep of SplitInsert (`for (i = start; i < size; i += diff)`). -/
def sweepUp (splitIdx pid diff size : Nat) : Nat → Nat → Dir → Dir
  | 0, _, d => d
  | fuel + 1, i, d =>
    if i < size then
      let d' := (d.setLocalDepth i (d.getLocalDepth splitIdx)).setBucketPageId i pid
      sweepUp splitIdx pid diff size fuel (i + diff) d'
    else d

/-- The rehash loop of SplitInsert: route each snapshotted entry to the
split bucket or the image bucket according to the updated directory. -/
def rehashLoop (bsize : Nat) (hash : Nat → Nat) (d : Dir) (splitPid : Nat) :
    List (Nat × Nat) → Bucket → Bucket → Bucket × Bucket
  | [], sb, ib => (sb, ib)
  | (k, v) :: rest, sb, ib =>
    if keyToPageId hash d k == splitPid then
      rehashLoop bsize hash d splitPid rest (sb.insert bsize k v).1 ib
    else
      rehashLoop bsize hash d splitPid rest sb (ib.insert bsize k v).1

/-- The `while (CanShrink()) DecrGlobalDepth();` loop at the end of Merge. -/
def shrinkLoop : Nat → Dir → Dir
  | 0, d => d
  | fuel + 1, d => if d.canShrink then shrinkLoop fuel d.decrGlobalDepth else d

/-- The redirect loop of Merge: every live slot pointing at the deleted
target page or at the image page is pointed at the image page and given
the image index's local depth. -/
def mergeSweep (targetPid imagePid imageIdx : Nat) : Nat → Nat → Dir → Dir
  | 0, _, d => d
  | fuel + 1, i, d =>
    if i < d.size then
      let d' :=
        if d.getBucketPageId i == targetPid || d.getBucketPageId i == imagePid then
          (d.setBucketPageId i imagePid).setLocalDepth i (d.getLocalDepth imageIdx)
        else d
      mergeSweep targetPid imagePid imageIdx fuel (i + 1) d'
    else d

/-- The body of ExtendibleHashTable::SplitInsert up to (but excluding) its
trailing recursive Insert call: possibly double the directory, increment
the split bucket's local depth, snapshot and clear the split bucket,
allocate the image bucket, set the image slot, run the four directory
sweeps, rehash the snapshot.  Returns `none` when the routed bucket page
is not resident (unreachable in real runs). -/
def splitPrep (bsize : Nat) (hash : Nat → Nat) (s : HT) (k : Nat) : Option HT :=
  let splitIdx := keyToDirectoryIndex hash s.dir k
  let splitDepth := s.dir.getLocalDepth splitIdx
  let d1 := if splitDepth == s.dir.globalDepth then s.dir.incrGlobalDepth else s.dir
  let d2 := d1.incrLocalDepth splitIdx
  let splitPid := keyToPageId hash d2 k
  match findPage s.pages splitPid with
  | none => none
  | some splitBucket =>
    let originArr := splitBucket.getArrayCopy bsize
    let pages1 := pSet s.pages splitPid (Bucket.clear bsize)
    let imagePid := s.nextPageId
    let pages2 := pSet pages1 imagePid (Bucket.clear bsize)
    let imageIdx := d2.getSplitImageIndex splitIdx
    let d3 := (d2.setLocalDepth imageIdx (d2.getLocalDepth splitIdx)).setBucketPageId imageIdx imagePid
    let diff := 1 <<< d3.getLocalDepth splitIdx
    let d4 := sweepDown splitIdx splitPid diff (splitIdx + 1) splitIdx d3
    let d5 := sweepUp splitIdx splitPid diff d4.size (d4.size + 1) splitIdx d4
    let d6 := sweepDown splitIdx imagePid diff (imageIdx + 1) imageIdx d5
    let d7 := sweepUp splitIdx imagePid diff d6.size (d6.size + 1) imageIdx d6
    let (sb, ib) := rehashLoop bsize hash d7 splitPid originArr
      (Bucket.clear bsize) (Bucket.clear bsize)
    let pages3 := pSet (pSet pages2 splitPid sb) imagePid ib
    some
      { s with pages := pages3
               dir := d7
               nextPageId := s.nextPageId + 1
               unpins := (s.dirPageId, true) :: (imagePid, true) :: (splitPid, true) :: s.unpins }

/-- ExtendibleHashTable::Insert.  On a full bucket the unpins are
recorded and SplitInsert runs, which ends by calling Insert again; the
fuel bounds that recursion (the C++ recursion depth is bounded by the
directory capacity in any run it survives); fuel exhaustion returns
failure. -/
def insertF (bsize : Nat) (hash : Nat → Nat) :
    Nat → HT → Nat → Nat → HT × Bool
  | 0, s, _, _ => (s, false)
  | fuel + 1, s, k, v =>
    let pid := keyToPageId hash s.dir k
    match findPage s.pages pid with
    | none => (s, false)
    | some b =>
      if !(b.isFull bsize) then
        let (b', res) := b.insert bsize k v
        ({ s with pages := pSet s.pages pid b'
                  unpins := (pid, true) :: (s.dirPageId, false) :: s.unpins },
          res)
      else
        let s1 := { s with unpins := (pid, false) :: (s.dirPageId, false) :: s.unpins }
        match splitPrep bsize hash s1 k with
        | none => (s1, false)
        | some s2 => insertF bsize hash fuel s2 k v

/-- ExtendibleHashTable::Merge: give up if the target's local depth is 0,
differs from the split image's, or the target bucket is non-empty on
recheck; otherwise delete the target page, redirect the directory, and
shrink the global depth while possible. -/
def mergeOp (bsize : Nat) (hash : Nat → Nat) (s : HT) (k : Nat) : HT :=
  let targetIdx := keyToDirectoryIndex hash s.dir k
  let imageIdx := s.dir.getSplitImageIndex targetIdx
  let targetPid := keyToPageId hash s.dir k
  let ld := s.dir.getLocalDepth targetIdx
  if ld == 0 || !(ld == s.dir.getLocalDepth imageIdx) then
    { s with unpins := (s.dirPageId, false) :: s.unpins }
  else
    match findPage s.pages targetPid with
    | none => { s with unpins := (s.dirPageId, false) :: s.unpins }
    | some tb =>
      if !(tb.isEmpty bsize) then
        { s with unpins := (targetPid, false) :: (s.dirPageId, false) :: s.unpins }
      else
        let s1 := { s with unpins := (targetPid, false) :: s.unpins
                           pages := pDel s.pages targetPid }
        let imagePid := s1.dir.getBucketPageId imageIdx
        let d1 := s1.dir.setBucketPageId targetIdx imagePid
        let d2 := (d1.decrLocalDepth targetIdx).decrLocalDepth imageIdx
        let d3 := mergeSweep targetPid imagePid imageIdx d2.size 0 d2
        let d4 := shrinkLoop (d3.globalDepth + 1) d3
        { s1 with dir := d4, unpins := (s.dirPageId, true) :: s1.unpins }

/-- ExtendibleHashTable::Remove: remove the matching pair from the routed
bucket; if the bucket became empty, call Merge. -/
def removeOp (bsize : Nat) (hash : Nat → Nat) (s : HT) (k v : Nat) : HT × Bool :=
  let pid := keyToPageId hash s.dir k
  match findPage s.pages pid with
  | none => (s, false)
  | some b =>
    let (b', res) := b.remove bsize k v
    let s1 := { s with pages := pSet s.pages pid b' }
    if b'.isEmpty bsize then
      let s2 := { s1 with unpins := (pid, false) :: (s.dirPageId, true) :: s1.unpins }
      (mergeOp bsize hash s2 k, res)
    else
      (({ s1 with unpins := (pid, true) :: (s.dirPageId, false) :: s1.unpins }), res)

/-- Top-level insert with a fixed recursion budget that every surviving
C++ execution respects. -/
def insertOp (bsize : Nat) (hash : Nat → Nat) (s : HT) (k v : Nat) : HT × Bool :=
  insertF bsize hash 32 s k v

/-- An operation of the hash table workload. -/
inductive Op where
  | ins (k v : Nat)
  | rem (k v : Nat)
deriving DecidableEq, Repr

def runOp (bsize : Nat) (hash : Nat → Nat) (s : HT) : Op → HT
  | .ins k v => (insertOp bsize hash s k v).1
  | .rem k v => (removeOp bsize hash s k v).1

def runOps (bsize : Nat) (hash : Nat → Nat) (s : HT) (ops : List Op) : HT :=
  ops.foldl (runOp bsize hash) s

/-- A workload on a table with bucket capacity 4 and the identity hash:
four keys congruent to 0 mod 8 drive the directory to global depth 3 with
the odd-index bucket left at local depth 1; filling that bucket and
inserting key 21 (directory index 5) then forces a split whose sweep
loops (stride 4, starting at indices 5 and  7) never reach the slots 1
and 3 below the stride. -/
def splitWorkload : List Op :=
  [.ins 0 100, .ins 8 101, .ins 16 102, .ins 24 103, .ins 4 104,
   .ins 5 105, .ins 7 106, .ins 13 107, .ins 15 108, .ins 21 109]

/-- The split workload followed by a removal that empties the bucket of
key 4 and triggers Merge, which shrinks the directory to global depth 2
while slot 3 still stale-points at the bucket holding (7, 106). -/
def lostValueWorkload : List Op := splitWorkload ++ [.rem 4 104]

/-- Inserting keys 1..5 under the identity hash grows the directory to
global depth 1 (the fifth insert splits the full first bucket). -/
def growWorkload : List Op :=
  [.ins 1 11, .ins 2 12, .ins 3 13, .ins 4 14, .ins 5 15]

/-- Removing every inserted key again; the final removals empty both
buckets and Merge shrinks the directory back to global depth 0. -/
def growShrinkWorkload : List Op :=
  growWorkload ++ [.rem 1 11, .rem 2 12, .rem 3 13, .rem 4 14, .rem 5 15]

end ExtHash

namespace LockMgr

inductive TxnState where
  | growing
  | shrinking
  | committed
  | aborted
deriving DecidableEq, Repr

inductive IsoLevel where
  | readUncommitted
  | readCommitted
  | repeatableRead
deriving DecidableEq, Repr

inductive LMode where
  | shared
  | exclusive
deriving DecidableEq, Repr

/-- The reasons carried by a thrown TransactionAbortException. -/
inductive AbortReason where
  | lockOnShrinking
  | lockSharedOnReadUncommitted
  | deadlock
deriving DecidableEq, Repr

/-- The outcome of a synchronous lock-manager call: a boolean return, a
thrown TransactionAbortException, or a block on the queue's condition
variable (`cv.wait`), modelled as a terminal outcome of one pass. -/
inductive LockOutcome where
  | ok (b : Bool)
  | thrown (r : AbortReason)
  | waiting
deriving DecidableEq, Repr

/-- A LockRequest in a queue. -/
structure Req where
  tid : Nat
  mode : LMode
  granted : Bool
deriving DecidableEq, Repr

/-- The collaborating Transaction object: state, isolation level, shared
and exclusive lock sets (of rids). -/
structure Txn where
  st : TxnState
  iso : IsoLevel
  sset : List Nat
  xset : List Nat
deriving DecidableEq, Repr

/-- A LockRequestQueue: the request list and the `upgrading_` transaction
id (`none` = INVALID_TXN_ID). -/
structure LQueue where
  reqs : List Req
  upgrading : Option Nat
deriving DecidableEq, Repr

/-- State of the lock manager together with the process-wide transaction
registry the wound path consults. -/
structure LM where
  txns : Nat → Txn
  queues : Nat → LQueue

def updT (m : Nat → Txn) (k : Nat) (v : Txn) : Nat → Txn :=
  fun i => if i = k then v else m i

def updQ (m : Nat → LQueue) (k : Nat) (v : LQueue) : Nat → LQueue :=
  fun i => if i = k then v else m i

/-- Wounding a younger transaction: set its state to ABORTED and erase the
rid from its exclusive and shared lock sets (lock_manager.cpp lines 61-64,
125-128, 204-207). -/
def wound (txns : Nat → Txn) (tid rid : Nat) : Nat → Txn :=
  let t := txns tid
  updT txns tid { t with st := .aborted, sset := t.sset.erase rid, xset := t.xset.erase rid }

/-- The `check_func` walk of LockExclusive (and LockUpgrade): stop with a
grant at the requester's own entry, wound-and-erase every younger entry,
and stop with `false` (wait) at the first older entry. -/
def walkX (tid rid : Nat) : (Nat → Txn) → List Req → (Nat → Txn) × List Req × Bool
  | txns, [] => (txns, [], true)
  | txns, r :: rest =>
    if r.tid = tid then (txns, { r with granted := true } :: rest, true)
    else if tid < r.tid then walkX tid rid (wound txns r.tid rid) rest
    else (txns, r :: rest, false)

/-- The `check_func` walk of LockShared: only EXCLUSIVE-mode entries ahead
conflict; younger conflicting entries are wounded and erased, an older
conflicting entry clears the continue flag but the walk keeps going; the
requester's own entry is granted the accumulated flag. -/
def walkS (tid rid : Nat) (cont : Bool) : (Nat → Txn) → List Req → (Nat → Txn) × List Req × Bool
  | txns, [] => (txns, [], true)
  | txns, r :: rest =>
    if r.tid = tid then (txns, { r with granted := cont } :: rest, cont)
    else if r.mode = .exclusive then
      if tid < r.tid then walkS tid rid cont (wound txns r.tid rid) rest
      else
        let (t', q', res) := walkS tid rid false txns rest
        (t', r :: q', res)
    else
      let (t', q', res) := walkS tid rid cont txns rest
      (t', r :: q', res)

/-- Erasing the requester's own entry from a queue (LockUpgrade and Unlock
scan for the entry with the transaction's id and erase it). -/
def eraseReq : List Req → Nat → List Req
  | [], _ => []
  | r :: rest, tid => if r.tid = tid then rest else r :: eraseReq rest tid

/-- LockManager::LockShared. -/
def lockShared (s : LM) (tid rid : Nat) : LM × LockOutcome :=
  let t := s.txns tid
  if t.st = .aborted then (s, .ok false)
  else if t.st = .shrinking then
    ({ s with txns := updT s.txns tid { t with st := .aborted } }, .thrown .lockOnShrinking)
  else if t.iso = .readUncommitted then
    ({ s with txns := updT s.txns tid { t with st := .aborted } },
      .thrown .lockSharedOnReadUncommitted)
  else if rid ∈ t.sset ∨ rid ∈ t.xset then (s, .ok true)
  else
    let txns1 := updT s.txns tid { t with st := .growing }
    let q0 := (s.queues rid).reqs ++ [⟨tid, .shared, false⟩]
    let (txns2, q2, res) := walkS tid rid true txns1 q0
    let s2 := { s with txns := txns2
                       queues := updQ s.queues rid { s.queues rid with reqs := q2 } }
    if res then
      let t2 := s2.txns tid
      ({ s2 with txns := updT s2.txns tid { t2 with sset := rid :: t2.sset } }, .ok true)
    else if (s2.txns tid).st = .aborted then (s2, .thrown .deadlock)
    else (s2, .waiting)

/-- LockManager::LockUpgrade. -/
def lockUpgrade (s : LM) (tid rid : Nat) : LM × LockOutcome :=
  let t := s.txns tid
  if t.st = .aborted then (s, .ok false)
  else if t.st = .shrinking then
    ({ s with txns := updT s.txns tid { t with st := .aborted } }, .thrown .lockOnShrinking)
  else if rid ∈ t.xset then (s, .ok true)
  else if (s.queues rid).upgrading ≠ none then
    ({ s with txns := updT s.txns tid { t with st := .aborted } }, .ok false)
  else
    let q0 := eraseReq (s.queues rid).reqs tid
    let txns1 := updT s.txns tid { t with sset := t.sset.erase rid }
    let q1 := q0 ++ [⟨tid, .exclusive, false⟩]
    let (txns2, q2, res) := walkX tid rid txns1 q1
    let s2 := { s with txns := txns2
                       queues := updQ s.queues rid ⟨q2, some tid⟩ }
    if res then
      let t2 := s2.txns tid
      ({ s2 with txns := updT s2.txns tid { t2 with xset := rid :: t2.xset }
                 queues := updQ s2.queues rid { s2.queues rid with upgrading := none } },
        .ok true)
    else if (s2.txns tid).st = .aborted then (s2, .thrown .deadlock)
    else (s2, .waiting)

/-- LockManager::LockExclusive.  A transaction that already holds the
shared lock is routed through LockUpgrade first (the upgrade's thrown or
blocking outcome propagates). -/
def lockExclusive (s : LM) (tid rid : Nat) : LM × LockOutcome :=
  let t := s.txns tid
  if t.st = .aborted then (s, .ok false)
  else if t.st = .shrinking then
    ({ s with txns := updT s.txns tid { t with st := .aborted } }, .thrown .lockOnShrinking)
  else
    let (s1, upres) := if rid ∈ t.sset then lockUpgrade s tid rid else (s, .ok false)
    match upres with
    | .thrown r => (s1, .thrown r)
    | .waiting => (s1, .waiting)
    | .ok _ =>
      let t1 := s1.txns tid
      if rid ∈ t1.xset then (s1, .ok true)
      else
        let txns1 := updT s1.txns tid { t1 with st := .growing }
        let q0 := (s1.queues rid).reqs ++ [⟨tid, .exclusive, false⟩]
        let (txns2, q2, res) := walkX tid rid txns1 q0
        let s2 := { s1 with txns := txns2
                            queues := updQ s1.queues rid { s1.queues rid with reqs := q2 } }
        if res then
          let t2 := s2.txns tid
          ({ s2 with txns := updT s2.txns tid { t2 with xset := rid :: t2.xset } }, .ok true)
        else if (s2.txns tid).st = .aborted then (s2, .thrown .deadlock)
        else (s2, .waiting)

/-- LockManager::Unlock: shrink a GROWING REPEATABLE_READ transaction,
erase the queue entry, notify, and clear the rid from both lock sets. -/
def unlock (s : LM) (tid rid : Nat) : LM × Bool :=
  let t := s.txns tid
  let txns1 :=
    if t.st = .growing ∧ t.iso = .repeatableRead then
      updT s.txns tid { t with st := .shrinking }
    else s.txns
  let q := eraseReq (s.queues rid).reqs tid
  let t1 := txns1 tid
  let txns2 := updT txns1 tid { t1 with sset := t1.sset.erase rid, xset := t1.xset.erase rid }
  ({ txns := txns2, queues := updQ s.queues rid { s.queues rid with reqs := q } }, true)

/-- A fresh lock-manager state over growing REPEATABLE_READ transactions
with empty lock sets and empty queues. -/
def initLM : LM :=
  { txns := fun _ => ⟨.growing, .repeatableRead, [], []⟩
    queues := fun _ => ⟨[], none⟩ }

/-- The wound-wait scenario of the specification: T1 (id 1) takes X on rid
0, T2 (id 2) requests X and waits, then T3 (id 0, older) requests X. -/
def woundStep1 : LM × LockOutcome := lockExclusive initLM 1 0

def woundStep2 : LM × LockOutcome := lockExclusive woundStep1.1 2 0

def woundStep3 : LM × LockOutcome := lockExclusive woundStep2.1 0 0

end LockMgr

/-! ## Theorems -/

/-- Claim C8: LRU replacer behaviour.  `victim` fails exactly when the
replacer is empty and otherwise removes and returns the least recently
unpinned frame; `unpin` is a no-op on a present frame and otherwise
inserts at the most-recently-used end, evicting the tail first when at
capacity; for a replacer of size 3 receiving unpins of frames 0, 1, 2 in
that order, the next victim is frame 0. -/
theorem lru_victim_unpin_spec :
    (∀ r : LRU.Replacer, (r.victim.1 = none ↔ r.lst = [])) ∧
    (∀ (r : LRU.Replacer) (f : Nat), r.lst.getLast? = some f →
      r.victim = (some f, { r with lst := r.lst.dropLast })) ∧
    (∀ (r : LRU.Replacer) (f : Nat), f ∈ r.lst → r.unpin f = r) ∧
    (∀ (r : LRU.Replacer) (f : Nat), f ∉ r.lst → r.capacity ≠ r.lst.length →
      r.unpin f = { r with lst := f :: r.lst }) ∧
    (∀ (r : LRU.Replacer) (f : Nat), f ∉ r.lst → r.capacity = r.lst.length →
      r.unpin f = { r with lst := f :: r.lst.dropLast }) ∧
    ((((LRU.Replacer.mk 3 []).unpin 0).unpin 1).unpin 2).victim.1 = some 0 := by
  refine ⟨?_, ?_, ?_, ?_, ?_, by decide⟩
  · intro r
    unfold LRU.Replacer.victim
    cases h : r.lst.getLast? with
    | none => simpa using List.getLast?_eq_none_iff.mp h
    | some f =>
      simp only []
      constructor
      · intro hc; exact absurd hc (by simp)
      · intro hl; rw [hl] at h; simp at h
  · intro r f h
    unfold LRU.Replacer.victim
    rw [h]
  · intro r f h
    unfold LRU.Replacer.unpin
    simp [h]
  · intro r f h hc
    unfold LRU.Replacer.unpin
    simp [h, hc]
  · intro r f h hc
    unfold LRU.Replacer.unpin
    simp [h, hc]

/-- Witness for C8 at a concrete replacer. -/
theorem lru_victim_unpin_spec_witness :
    (⟨2, [5, 7]⟩ : LRU.Replacer).victim = (some 7, ⟨2, [5]⟩) :=
  lru_victim_unpin_spec.2.1 ⟨2, [5, 7]⟩ 7 rfl

/-- The frame-selection helper fails exactly when both sources are
empty. -/
theorem pickFrame_eq_none_iff (s : BPool.BPM) :
    BPool.pickFrame s = none ↔ (s.freeList = [] ∧ s.repl.lst = []) := by
  unfold BPool.pickFrame
  cases hf : s.freeList with
  | cons a l => simp
  | nil =>
    simp only [true_and]
    unfold LRU.Replacer.victim
    cases hl : s.repl.lst.getLast? with
    | none => simpa using List.getLast?_eq_none_iff.mp hl
    | some f =>
      simp only []
      constructor
      · intro hc; exact absurd hc (by simp)
      · intro hnil; rw [hnil] at hl; simp at hl

/-- A frame read by index within bounds is a member of the frame list. -/
theorem getD_mem_of_lt {l : List BPool.Frame} {i : Nat} (h : i < l.length) :
    l.getD i BPool.frameDefault ∈ l := by
  rw [List.getD_eq_getElem l BPool.frameDefault h]
  exact List.getElem_mem h

/-- Claim C7: `new_page` returns absent iff every frame is pinned
(equivalently, under the pool invariant: the free list is empty and the
replacer is empty); `fetch_page` of a non-resident page returns absent
exactly when no free frame and no victim is available; on those failure
paths the state is unchanged. -/
theorem pool_exhaustion_spec :
    (∀ s : BPool.BPM, BPool.wf s →
      ((BPool.newPg s).1 = none ↔ s.frames.all (fun f => f.pin != 0) = true)) ∧
    (∀ s : BPool.BPM, BPool.wf s →
      (s.frames.all (fun f => f.pin != 0) = true ↔ (s.freeList = [] ∧ s.repl.lst = []))) ∧
    (∀ s : BPool.BPM, s.frames.all (fun f => f.pin != 0) = true →
      BPool.newPg s = (none, s)) ∧
    (∀ (s : BPool.BPM) (p : Nat), BPool.ptLookup s.pageTable p = none →
      ((BPool.fetchPg s p).1 = none ↔ (s.freeList = [] ∧ s.repl.lst = []))) ∧
    (∀ (s : BPool.BPM) (p : Nat), BPool.ptLookup s.pageTable p = none →
      s.freeList = [] → s.repl.lst = [] → BPool.fetchPg s p = (none, s)) := by
  have key : ∀ s : BPool.BPM, BPool.wf s →
      (s.frames.all (fun f => f.pin != 0) = true ↔ (s.freeList = [] ∧ s.repl.lst = [])) := by
    intro s hwf
    obtain ⟨hlen, hfreel, hrepl, hcov⟩ := hwf
    constructor
    · intro hall
      rw [List.all_eq_true] at hall
      constructor
      · cases hf : s.freeList with
        | nil => rfl
        | cons a l =>
          exfalso
          have hm : a ∈ s.freeList := by rw [hf]; exact List.mem_cons_self a l
          obtain ⟨ha, hpin⟩ := hfreel a hm
          have : (s.frames.getD a BPool.frameDefault).pin ≠ 0 := by
            simpa using hall _ (getD_mem_of_lt (hlen ▸ ha))
          exact this hpin
      · cases hf : s.repl.lst with
        | nil => rfl
        | cons a l =>
          exfalso
          have hm : a ∈ s.repl.lst := by rw [hf]; exact List.mem_cons_self a l
          obtain ⟨ha, hpin⟩ := hrepl a hm
          have : (s.frames.getD a BPool.frameDefault).pin ≠ 0 := by
            simpa using hall _ (getD_mem_of_lt (hlen ▸ ha))
          exact this hpin
    · rintro ⟨h1, h2⟩
      rw [List.all_eq_true]
      intro fr hm
      obtain ⟨i, hi, hig⟩ := List.mem_iff_getElem.mp hm
      by_contra hc
      have hpin0 : fr.pin = 0 := by simpa using hc
      have hgd : (s.frames.getD i BPool.frameDefault).pin = 0 := by
        rw [List.getD_eq_getElem s.frames BPool.frameDefault hi, hig, hpin0]
      rcases hcov i (hlen ▸ hi) hgd with h | h
      · rw [h1] at h; exact absurd h (List.not_mem_nil i)
      · rw [h2] at h; exact absurd h (List.not_mem_nil i)
  refine ⟨?_, key, ?_, ?_, ?_⟩
  · intro s hwf
    constructor
    · intro hnone
      by_contra hall
      have hall' : s.frames.all (fun f => f.pin != 0) = false :=
        Bool.eq_false_iff.mpr hall
      have hpick : BPool.pickFrame s ≠ none := by
        rw [Ne, pickFrame_eq_none_iff]
        intro hboth
        rw [(key s hwf)] at hall
        exact hall hboth
      unfold BPool.newPg at hnone
      rw [hall'] at hnone
      simp only [Bool.false_eq_true, if_false] at hnone
      cases hp : BPool.pickFrame s with
      | none => exact hpick hp
      | some fs => rw [hp] at hnone; simp at hnone
    · intro hall
      unfold BPool.newPg
      rw [hall]
      simp
  · intro s hall
    unfold BPool.newPg
    rw [hall]
    simp
  · intro s p hnr
    unfold BPool.fetchPg
    rw [hnr]
    rw [← pickFrame_eq_none_iff]
    cases hp : BPool.pickFrame s with
    | none => simp
    | some fs => simp
  · intro s p hnr h1 h2
    unfold BPool.fetchPg
    rw [hnr]
    have : BPool.pickFrame s = none := (pickFrame_eq_none_iff s).mpr ⟨h1, h2⟩
    rw [this]

/-- Witness for C7 at a fresh two-frame pool. -/
theorem pool_exhaustion_spec_witness :
    BPool.wf (BPool.mkBPM 2 1 0) ∧
    ((BPool.newPg (BPool.mkBPM 2 1 0)).1 = none ↔
      (BPool.mkBPM 2 1 0).frames.all (fun f => f.pin != 0) = true) :=
  ⟨by decide, pool_exhaustion_spec.1 (BPool.mkBPM 2 1 0) (by decide)⟩

/-- Claim C10: DeletePgImp always invokes the disk manager's
DeallocatePage hook, even on the pinned-failure path, and on that path
leaves all other buffer-pool state unchanged. -/
theorem delete_page_always_deallocates :
    (∀ (s : BPool.BPM) (pid : Nat),
      ((BPool.deletePg s pid).2).deallocLog = pid :: s.deallocLog) ∧
    (∀ (s : BPool.BPM) (pid fid : Nat),
      BPool.ptLookup s.pageTable pid = some fid →
      0 < (s.frames.getD fid BPool.frameDefault).pin →
      (BPool.deletePg s pid).1 = false ∧
      ((BPool.deletePg s pid).2).pageTable = s.pageTable ∧
      ((BPool.deletePg s pid).2).frames = s.frames ∧
      ((BPool.deletePg s pid).2).freeList = s.freeList ∧
      ((BPool.deletePg s pid).2).repl = s.repl ∧
      ((BPool.deletePg s pid).2).disk = s.disk) := by
  constructor
  · intro s pid
    unfold BPool.deletePg
    cases h : BPool.ptLookup s.pageTable pid with
    | none => simp [h]
    | some fid =>
      simp only [h]
      split
      · rfl
      · split <;> rfl
  · intro s pid fid h hpin
    simp only [List.getD_eq_getElem?_getD] at hpin
    unfold BPool.deletePg
    simp [h, hpin]

/-- Claim C6: eviction never loses dirty data.  If the free list is empty
and the replacer's victim frame holds page `p` with the dirty bit set,
then after `new_page` (or after `fetch_page` of a non-resident page) the
disk holds that frame's data at `p`; and a fetch of a non-resident page
returns exactly the data the disk then holds for it. -/
theorem eviction_writes_back_dirty_page :
    (∀ (s : BPool.BPM) (fid p : Nat),
      s.freeList = [] →
      s.repl.lst.getLast? = some fid →
      (s.frames.getD fid BPool.frameDefault).pid = some p →
      (s.frames.getD fid BPool.frameDefault).dirty = true →
      s.frames.all (fun f => f.pin != 0) = false →
      BPool.diskRead ((BPool.newPg s).2).disk p =
        (s.frames.getD fid BPool.frameDefault).data) ∧
    (∀ (s : BPool.BPM) (fid p q : Nat),
      s.freeList = [] →
      s.repl.lst.getLast? = some fid →
      (s.frames.getD fid BPool.frameDefault).pid = some p →
      (s.frames.getD fid BPool.frameDefault).dirty = true →
      BPool.ptLookup s.pageTable q = none →
      BPool.diskRead ((BPool.fetchPg s q).2).disk p =
        (s.frames.getD fid BPool.frameDefault).data) ∧
    (∀ (s : BPool.BPM) (p : Nat),
      BPool.ptLookup s.pageTable p = none →
      ∀ (x : Nat) (s' : BPool.BPM), BPool.fetchPg s p = (some x, s') →
      x = BPool.diskRead s'.disk p) := by
  refine ⟨?_, ?_, ?_⟩
  · intro s fid p hfree hvict hpid hdirty hnp
    unfold BPool.newPg BPool.pickFrame BPool.allocatePage LRU.Replacer.victim
    simp only [hfree, hvict, hnp, hpid, hdirty, Bool.false_eq_true, if_false, if_true,
      Option.getD_some]
    simp [BPool.diskRead, BPool.diskWrite]
  · intro s fid p q hfree hvict hpid hdirty hnr
    unfold BPool.fetchPg BPool.pickFrame LRU.Replacer.victim
    simp only [hnr, hfree, hvict, hpid, hdirty, if_true, Option.getD_some]
    simp [BPool.diskRead, BPool.diskWrite]
  · intro s p hnr x s' hfetch
    unfold BPool.fetchPg at hfetch
    rw [hnr] at hfetch
    cases hpick : BPool.pickFrame s with
    | none => rw [hpick] at hfetch; simp at hfetch
    | some fs =>
      rw [hpick] at hfetch
      have hx : x = BPool.diskRead fs.2.disk p := by
        have := congrArg Prod.fst hfetch
        simpa using this.symm
      have hs' : s'.disk = fs.2.disk := by
        have := congrArg (fun t => (Prod.snd t).disk) hfetch
        simpa using this.symm
      rw [hx, hs']

/-- Witness for C6: the dirty-eviction scenario on a one-frame pool:
new page 0, write 171 (0xAB) through the handle, unpin dirty, allocate a
new page evicting page 0, then fetch page 0 back and observe 171. -/
theorem eviction_writes_back_dirty_page_witness :
    (BPool.diskRead
      ((BPool.newPg
        ((BPool.unpinPg
          (BPool.writeData ((BPool.newPg (BPool.mkBPM 1 1 0)).2) 0 171)
          0 true).2)).2).disk 0 = 171) ∧
    (BPool.fetchPg
        ((BPool.unpinPg ((BPool.newPg
          ((BPool.unpinPg
            (BPool.writeData ((BPool.newPg (BPool.mkBPM 1 1 0)).2) 0 171)
            0 true).2)).2) 1 false).2) 0).1 = some 171 := by
  constructor
  · exact (eviction_writes_back_dirty_page.1
      ((BPool.unpinPg
        (BPool.writeData ((BPool.newPg (BPool.mkBPM 1 1 0)).2) 0 171) 0 true).2)
      0 0 (by decide) (by decide) (by decide) (by decide) (by decide)).trans (by decide)
  · decide

/-- Claim C1 is violated by the code: after the first nine operations of
`splitWorkload` the directory invariants checked by VerifyIntegrity hold,
but the tenth operation (inserting key 21 into the full bucket shared by
directory slots 1, 3, 5, 7 at local depth 1) runs SplitInsert, whose
sweep loops with stride 4 starting at indices 5 and 7 never update slots
1 and 3; those slots keep the old page id at local depth 1 while slot 5
carries depth 2, so the pointer-count and equal-depth invariants fail. -/
theorem split_insert_breaks_directory_integrity :
    ((ExtHash.runOps 4 id (ExtHash.mkTable 4) (ExtHash.splitWorkload.take 9)).dir.checkIntegrity
      = true) ∧
    ((ExtHash.runOps 4 id (ExtHash.mkTable 4) ExtHash.splitWorkload).dir.checkIntegrity
      = false) := by
  decide

/-- Claim C2 is violated by the code: in `lostValueWorkload` the seventh
operation inserts (7, 106) and returns true, (7, 106) is never removed,
yet after the final removal (which merges and shrinks the directory to
global depth 2, cutting off the stale slot routing) `get 7` returns no
values. -/
theorem inserted_value_lost_after_shrink :
    ((ExtHash.insertOp 4 id
        (ExtHash.runOps 4 id (ExtHash.mkTable 4) (ExtHash.lostValueWorkload.take 6)) 7 106).2
      = true) ∧
    (ExtHash.lostValueWorkload.get? 6 = some (.ins 7 106)) ∧
    ((ExtHash.getValue 4 id
        (ExtHash.runOps 4 id (ExtHash.mkTable 4) ExtHash.lostValueWorkload) 7).2
      = ([], false)) := by
  decide

/-- Claim C9 as stated is false: a duplicate insert into a non-full
bucket returns false, yet the fast path still unpins the bucket page with
the dirty hint set (extendible_hash_table.cpp line 115 passes true
unconditionally). -/
theorem insert_fastpath_dirty_counterexample :
    ((ExtHash.insertOp 4 id (ExtHash.insertOp 4 id (ExtHash.mkTable 4) 1 1).1 1 1).2 = false) ∧
    (((ExtHash.insertOp 4 id (ExtHash.insertOp 4 id (ExtHash.mkTable 4) 1 1).1 1 1).1).unpins.head?
      = some (1, true)) := by
  decide

/-- Claim C9 amended: on the fast path (non-full routed bucket) the bucket
page is always unpinned with the dirty hint set, whether or not the
insertion happened, and the call returns the bucket-level insert's
result. -/
theorem insert_fastpath_always_marks_dirty :
    ∀ (bsize : Nat) (hash : Nat → Nat) (fuel : Nat) (s : ExtHash.HT) (k v : Nat)
      (b : ExtHash.Bucket),
      ExtHash.findPage s.pages (ExtHash.keyToPageId hash s.dir k) = some b →
      b.isFull bsize = false →
      ((ExtHash.insertF bsize hash (fuel + 1) s k v).1).unpins.head? =
        some (ExtHash.keyToPageId hash s.dir k, true) ∧
      (ExtHash.insertF bsize hash (fuel + 1) s k v).2 = (b.insert bsize k v).2 := by
  intro bsize hash fuel s k v b hfind hfull
  unfold ExtHash.insertF
  simp [hfind, hfull]

/-- Witness for the amended C9 on a fresh table. -/
theorem insert_fastpath_always_marks_dirty_witness :
    ((ExtHash.insertF 4 id 1 (ExtHash.mkTable 4) 1 1).1).unpins.head? = some (1, true) :=
  (insert_fastpath_always_marks_dirty 4 id 0 (ExtHash.mkTable 4) 1 1
    (ExtHash.Bucket.clear 4) (by decide) (by decide)).1

/-- Reading a Nat list through `getD` after `set`. -/
theorem getD_set_nat (l : List Nat) (i j v : Nat) :
    (l.set i v).getD j 0 = if i = j ∧ i < l.length then v else l.getD j 0 := by
  by_cases hij : i = j
  · subst hij
    by_cases hl : i < l.length
    · simp [List.getD_eq_getElem?_getD, List.getElem?_set, hl]
    · simp [List.getD_eq_getElem?_getD, List.getElem?_set, hl,
        List.getElem?_eq_none (Nat.le_of_not_lt hl)]
  · simp [List.getD_eq_getElem?_getD, List.getElem?_set, hij]

/-- Reading past the end of a Nat list yields the default. -/
theorem getD_default_of_len_le (l : List Nat) (j : Nat) (h : l.length ≤ j) :
    l.getD j 0 = 0 := by
  simp [List.getD_eq_getElem?_getD, List.getElem?_eq_none h]

theorem dir_pid_setPid (d : ExtHash.Dir) (i j p : Nat) :
    (d.setBucketPageId i p).getBucketPageId j =
      if i = j ∧ i < d.bucketPageIds.length then p else d.getBucketPageId j := by
  unfold ExtHash.Dir.getBucketPageId ExtHash.Dir.setBucketPageId
  exact getD_set_nat _ i j p

theorem dir_ld_setLd (d : ExtHash.Dir) (i j x : Nat) :
    (d.setLocalDepth i x).getLocalDepth j =
      if i = j ∧ i < d.localDepths.length then x else d.getLocalDepth j := by
  unfold ExtHash.Dir.getLocalDepth ExtHash.Dir.setLocalDepth
  exact getD_set_nat _ i j x

theorem dir_pid_setLd (d : ExtHash.Dir) (i x j : Nat) :
    (d.setLocalDepth i x).getBucketPageId j = d.getBucketPageId j := rfl

theorem dir_ld_setPid (d : ExtHash.Dir) (i p j : Nat) :
    (d.setBucketPageId i p).getLocalDepth j = d.getLocalDepth j := rfl

theorem dir_size_setPid (d : ExtHash.Dir) (i p : Nat) :
    (d.setBucketPageId i p).size = d.size := rfl

theorem dir_size_setLd (d : ExtHash.Dir) (i x : Nat) :
    (d.setLocalDepth i x).size = d.size := rfl

theorem dir_lenPid_setPid (d : ExtHash.Dir) (i p : Nat) :
    (d.setBucketPageId i p).bucketPageIds.length = d.bucketPageIds.length := by
  simp [ExtHash.Dir.setBucketPageId]

theorem dir_lenLd_setLd (d : ExtHash.Dir) (i x : Nat) :
    (d.setLocalDepth i x).localDepths.length = d.localDepths.length := by
  simp [ExtHash.Dir.setLocalDepth]

theorem dir_lenPid_setLd (d : ExtHash.Dir) (i x : Nat) :
    (d.setLocalDepth i x).bucketPageIds.length = d.bucketPageIds.length := rfl

theorem dir_lenLd_setPid (d : ExtHash.Dir) (i p : Nat) :
    (d.setBucketPageId i p).localDepths.length = d.localDepths.length := rfl

/-- The Merge redirect loop leaves slots below its cursor untouched and
never changes the global depth. -/
theorem mergeSweep_lower (tp ip ii : Nat) :
    ∀ (fuel i0 : Nat) (d : ExtHash.Dir) (j : Nat), j < i0 →
      (ExtHash.mergeSweep tp ip ii fuel i0 d).getBucketPageId j = d.getBucketPageId j ∧
      (ExtHash.mergeSweep tp ip ii fuel i0 d).getLocalDepth j = d.getLocalDepth j ∧
      (ExtHash.mergeSweep tp ip ii fuel i0 d).globalDepth = d.globalDepth := by
  intro fuel
  induction fuel with
  | zero => intro i0 d j hj; exact ⟨rfl, rfl, rfl⟩
  | succ n ih =>
    intro i0 d j hj
    unfold ExtHash.mergeSweep
    by_cases hsz : i0 < d.size
    · simp only [hsz, if_true]
      split
      · rename_i hmatch
        obtain ⟨h1, h2, h3⟩ := ih (i0 + 1)
          ((d.setBucketPageId i0 ip).setLocalDepth i0 (d.getLocalDepth ii)) j (by omega)
        refine ⟨?_, ?_, ?_⟩
        · rw [h1, dir_pid_setLd, dir_pid_setPid]
          simp [show ¬(i0 = j) from by omega]
        · rw [h2, dir_ld_setLd, dir_ld_setPid]
          simp [show ¬(i0 = j) from by omega]
        · rw [h3]; rfl
      · exact ih (i0 + 1) d j (by omega)
    · simp [hsz]

/-- The Merge redirect loop repoints every not-yet-visited live slot whose
page id is the target's or the image's at the image page id and the image
slot's local depth. -/
theorem mergeSweep_spec (tp ip ii : Nat) :
    ∀ (fuel i0 : Nat) (d : ExtHash.Dir),
      d.size ≤ i0 + fuel →
      d.getBucketPageId ii = ip →
      ∀ j, i0 ≤ j → j < d.size →
        j < d.bucketPageIds.length → j < d.localDepths.length →
        (d.getBucketPageId j = tp ∨ d.getBucketPageId j = ip) →
        (ExtHash.mergeSweep tp ip ii fuel i0 d).getBucketPageId j = ip ∧
        (ExtHash.mergeSweep tp ip ii fuel i0 d).getLocalDepth j = d.getLocalDepth ii := by
  intro fuel
  induction fuel with
  | zero =>
    intro i0 d hmax hip j hj1 hj2 hj3 hj4 hj5
    omega
  | succ n ih =>
    intro i0 d hmax hip j hj1 hj2 hj3 hj4 hj5
    have hsz : i0 < d.size := by omega
    unfold ExtHash.mergeSweep
    simp only [hsz, if_true]
    by_cases hm : (d.getBucketPageId i0 == tp || d.getBucketPageId i0 == ip) = true
    · simp only [hm, if_true]
      set d' := (d.setBucketPageId i0 ip).setLocalDepth i0 (d.getLocalDepth ii) with hd'
      have hdip : d'.getBucketPageId ii = ip := by
        rw [hd', dir_pid_setLd, dir_pid_setPid]
        split
        · rfl
        · exact hip
      have hdld : d'.getLocalDepth ii = d.getLocalDepth ii := by
        rw [hd', dir_ld_setLd]
        split
        · rfl
        · rw [dir_ld_setPid]
      have hdsz : d'.size = d.size := by rw [hd', dir_size_setLd, dir_size_setPid]
      have hdlen1 : d'.bucketPageIds.length = d.bucketPageIds.length := by
        rw [hd', dir_lenPid_setLd, dir_lenPid_setPid]
      have hdlen2 : d'.localDepths.length = d.localDepths.length := by
        rw [hd', dir_lenLd_setLd, dir_lenLd_setPid]
      by_cases hji : j = i0
      · subst hji
        obtain ⟨l1, l2, _⟩ := mergeSweep_lower tp ip ii n (j + 1) d' j (by omega)
        refine ⟨?_, ?_⟩
        · rw [l1, hd', dir_pid_setLd, dir_pid_setPid]
          simp [hj3]
        · rw [l2, hd', dir_ld_setLd, dir_lenLd_setPid]
          simp [hj4]
      · have hmax' : d'.size ≤ (i0 + 1) + n := by rw [hdsz]; omega
        have hstep := ih (i0 + 1) d' hmax' hdip j (by omega) (by rw [hdsz]; omega)
          (by rw [hdlen1]; omega) (by rw [hdlen2]; omega) ?_
        · exact ⟨hstep.1, by rw [hstep.2, hdld]⟩
        · rw [hd', dir_pid_setLd, dir_pid_setPid]
          simp only [show ¬(i0 = j) from fun hc => hji hc.symm, false_and, if_false]
          exact hj5
    · simp only [hm, if_false]
      have hji : i0 ≠ j := by
        intro hc
        subst hc
        rcases hj5 with h | h <;> simp [h] at hm
      exact ih (i0 + 1) d (by omega) hip j (by omega) hj2 hj3 hj4 hj5

/-- The shrink loop only changes the global depth, never the arrays. -/
theorem shrinkLoop_arrays :
    ∀ (fuel : Nat) (d : ExtHash.Dir),
      (ExtHash.shrinkLoop fuel d).bucketPageIds = d.bucketPageIds ∧
      (ExtHash.shrinkLoop fuel d).localDepths = d.localDepths := by
  intro fuel
  induction fuel with
  | zero => intro d; exact ⟨rfl, rfl⟩
  | succ n ih =>
    intro d
    unfold ExtHash.shrinkLoop
    by_cases hc : d.canShrink = true
    · simp only [hc, if_true]
      exact ih d.decrGlobalDepth
    · simp only [hc, if_false]
      exact ⟨rfl, rfl⟩

/-- With fuel exceeding the global depth, the shrink loop runs until
`can_shrink` fails (or the depth has bottomed out at zero). -/
theorem shrinkLoop_stops :
    ∀ (fuel : Nat) (d : ExtHash.Dir), d.globalDepth < fuel →
      (ExtHash.shrinkLoop fuel d).canShrink = false ∨
      (ExtHash.shrinkLoop fuel d).globalDepth = 0 := by
  intro fuel
  induction fuel with
  | zero => intro d hd; omega
  | succ n ih =>
    intro d hd
    unfold ExtHash.shrinkLoop
    by_cases hc : d.canShrink = true
    · simp only [hc, if_true]
      rcases Nat.eq_zero_or_pos n with hn | hn
      · subst hn
        have hg : d.globalDepth = 0 := by omega
        right
        show (ExtHash.shrinkLoop 0 d.decrGlobalDepth).globalDepth = 0
        show d.globalDepth - 1 = 0
        omega
      · exact ih d.decrGlobalDepth (by show d.globalDepth - 1 < n; omega)
    · simp only [hc, if_false]
      left
      exact Bool.eq_false_iff.mpr hc

/-- Flipping a bit always changes a number. -/
theorem xor_shift_ne (t n : Nat) : t ^^^ (1 <<< n) ≠ t := by
  intro hc
  have h0 : (1 <<< n) = 0 := by
    have h1 := congrArg (fun x => t ^^^ x) hc
    simpa [← Nat.xor_assoc, Nat.xor_self, Nat.zero_xor] using h1
  rw [Nat.one_shiftLeft] at h0
  exact (Nat.two_pow_pos n).ne' h0

/-- The directory index of a key is below the live directory size. -/
theorem keyToDirectoryIndex_lt (hash : Nat → Nat) (d : ExtHash.Dir) (k : Nat) :
    ExtHash.keyToDirectoryIndex hash d k < d.size := by
  unfold ExtHash.keyToDirectoryIndex ExtHash.Dir.globalDepthMask ExtHash.Dir.size
  have h1 : hash k &&& (1 <<< d.globalDepth - 1) ≤ 1 <<< d.globalDepth - 1 :=
    Nat.and_le_right
  have h2 : 0 < 1 <<< d.globalDepth := by
    rw [Nat.one_shiftLeft]; exact Nat.two_pow_pos _
  omega

/-- The merging branch of Merge, characterized: the empty target page is
deleted from the buffer pool, every live slot pointing at the target or
the image is repointed at the image page with the target's local depth
less one, and afterwards `can_shrink` no longer holds (or the depth hit
zero). -/
theorem mergeOp_merge_case
    (bsize : Nat) (hash : Nat → Nat) (s : ExtHash.HT) (k : Nat) (tb : ExtHash.Bucket)
    (hlen1 : s.dir.size ≤ s.dir.bucketPageIds.length)
    (hlen2 : s.dir.size ≤ s.dir.localDepths.length)
    (hne0 : s.dir.getLocalDepth (ExtHash.keyToDirectoryIndex hash s.dir k) ≠ 0)
    (heq : s.dir.getLocalDepth (ExtHash.keyToDirectoryIndex hash s.dir k) =
      s.dir.getLocalDepth (s.dir.getSplitImageIndex (ExtHash.keyToDirectoryIndex hash s.dir k)))
    (hfind : ExtHash.findPage s.pages (ExtHash.keyToPageId hash s.dir k) = some tb)
    (hempty : tb.isEmpty bsize = true) :
    (ExtHash.mergeOp bsize hash s k).pages =
      ExtHash.pDel s.pages (ExtHash.keyToPageId hash s.dir k) ∧
    ((ExtHash.mergeOp bsize hash s k).dir.canShrink = false ∨
      (ExtHash.mergeOp bsize hash s k).dir.globalDepth = 0) ∧
    (∀ j, j < s.dir.size →
      (s.dir.getBucketPageId j = ExtHash.keyToPageId hash s.dir k ∨
        s.dir.getBucketPageId j =
          s.dir.getBucketPageId
            (s.dir.getSplitImageIndex (ExtHash.keyToDirectoryIndex hash s.dir k))) →
      (ExtHash.mergeOp bsize hash s k).dir.getBucketPageId j =
        s.dir.getBucketPageId
          (s.dir.getSplitImageIndex (ExtHash.keyToDirectoryIndex hash s.dir k)) ∧
      (ExtHash.mergeOp bsize hash s k).dir.getLocalDepth j =
        s.dir.getLocalDepth (ExtHash.keyToDirectoryIndex hash s.dir k) - 1) := by
  set t := ExtHash.keyToDirectoryIndex hash s.dir k with ht
  set ii := s.dir.getSplitImageIndex t with hiidef
  set tp := ExtHash.keyToPageId hash s.dir k with htp
  set ip := s.dir.getBucketPageId ii with hipdef
  set d1 := s.dir.setBucketPageId t ip with hd1
  set d2 := (d1.decrLocalDepth t).decrLocalDepth ii with hd2
  set d3 := ExtHash.mergeSweep tp ip ii d2.size 0 d2 with hd3
  set d4 := ExtHash.shrinkLoop (d3.globalDepth + 1) d3 with hd4
  have hti : ii ≠ t := by
    rw [hiidef]
    unfold ExtHash.Dir.getSplitImageIndex
    exact xor_shift_ne t _
  have htine : ¬(t = ii) := fun hc => hti hc.symm
  have htlt : t < s.dir.size := by rw [ht]; exact keyToDirectoryIndex_lt hash s.dir k
  have hiilen : ii < s.dir.localDepths.length := by
    by_contra hc
    have hz : s.dir.getLocalDepth ii = 0 := by
      unfold ExtHash.Dir.getLocalDepth
      exact getD_default_of_len_le _ _ (Nat.le_of_not_lt hc)
    rw [← heq] at hz
    exact hne0 hz
  have hguard : (s.dir.getLocalDepth t == 0 ||
      !(s.dir.getLocalDepth t == s.dir.getLocalDepth ii)) = false := by
    simp [← heq, hne0]
  have hnemp : (!(tb.isEmpty bsize)) = false := by simp [hempty]
  have hm0 : ExtHash.mergeOp bsize hash s k =
      (if (s.dir.getLocalDepth t == 0 ||
          !(s.dir.getLocalDepth t == s.dir.getLocalDepth ii)) = true then
        { s with unpins := (s.dirPageId, false) :: s.unpins }
      else
        match ExtHash.findPage s.pages tp with
        | none => { s with unpins := (s.dirPageId, false) :: s.unpins }
        | some tb0 =>
          if (!(tb0.isEmpty bsize)) = true then
            { s with unpins := (tp, false) :: (s.dirPageId, false) :: s.unpins }
          else
            { s with
                pages := ExtHash.pDel s.pages tp
                dir := d4
                unpins := (s.dirPageId, true) :: (tp, false) :: s.unpins }) := rfl
  have hm : ExtHash.mergeOp bsize hash s k =
      { s with
          pages := ExtHash.pDel s.pages tp
          dir := d4
          unpins := (s.dirPageId, true) :: (tp, false) :: s.unpins } := by
    rw [hm0, hguard]
    simp only [Bool.false_eq_true, if_false, hfind]
    rw [hnemp]
    simp only [Bool.false_eq_true, if_false]
  have harr := shrinkLoop_arrays (d3.globalDepth + 1) d3
  have hd2size : d2.size = s.dir.size := by
    rw [hd2]
    unfold ExtHash.Dir.decrLocalDepth
    rw [dir_size_setLd, dir_size_setLd, hd1, dir_size_setPid]
  have hd2lenP : d2.bucketPageIds.length = s.dir.bucketPageIds.length := by
    rw [hd2]
    unfold ExtHash.Dir.decrLocalDepth
    rw [dir_lenPid_setLd, dir_lenPid_setLd, hd1, dir_lenPid_setPid]
  have hd2lenL : d2.localDepths.length = s.dir.localDepths.length := by
    rw [hd2]
    unfold ExtHash.Dir.decrLocalDepth
    rw [dir_lenLd_setLd, dir_lenLd_setLd, hd1, dir_lenLd_setPid]
  have hd2pid : ∀ j, d2.getBucketPageId j = d1.getBucketPageId j := by
    intro j
    rw [hd2]
    unfold ExtHash.Dir.decrLocalDepth
    rw [dir_pid_setLd, dir_pid_setLd]
  have hd2ip : d2.getBucketPageId ii = ip := by
    rw [hd2pid, hd1, dir_pid_setPid]
    simp [htine]
  have hd2ldii : d2.getLocalDepth ii = s.dir.getLocalDepth t - 1 := by
    rw [hd2]
    unfold ExtHash.Dir.decrLocalDepth
    rw [dir_ld_setLd]
    have hlen' : ii < ((d1.decrLocalDepth t).localDepths.length) := by
      unfold ExtHash.Dir.decrLocalDepth
      rw [dir_lenLd_setLd, hd1, dir_lenLd_setPid]
      exact hiilen
    unfold ExtHash.Dir.decrLocalDepth at hlen'
    simp only [hlen', and_true, if_pos rfl]
    rw [dir_ld_setLd]
    simp only [htine, false_and, if_false]
    rw [hd1, dir_ld_setPid, ← heq]
    simp
  refine ⟨?_, ?_, ?_⟩
  · rw [hm]
  · rw [hm]
    exact shrinkLoop_stops (d3.globalDepth + 1) d3 (Nat.lt_succ_self _)
  · intro j hj hdisj
    rw [hm]
    have hsweep := mergeSweep_spec tp ip ii d2.size 0 d2 (by omega) hd2ip j
      (Nat.zero_le j) (by omega) (by rw [hd2lenP]; omega) (by rw [hd2lenL]; omega) ?_
    · constructor
      · show d4.getBucketPageId j = ip
        rw [hd4]
        unfold ExtHash.Dir.getBucketPageId
        rw [harr.1]
        exact hsweep.1
      · show d4.getLocalDepth j = s.dir.getLocalDepth t - 1
        rw [hd4]
        unfold ExtHash.Dir.getLocalDepth
        rw [harr.2]
        have h2 := hsweep.2
        unfold ExtHash.Dir.getLocalDepth at h2
        rw [h2]
        exact hd2ldii
    · by_cases hjt : j = t
      · subst hjt
        right
        rw [hd2pid, hd1, dir_pid_setPid]
        simp [show t < s.dir.bucketPageIds.length from by omega]
      · rw [hd2pid, hd1, dir_pid_setPid]
        simp only [show ¬(t = j) from fun hc => hjt hc.symm, false_and, if_false]
        exact hdisj

/-- Claim C5: Merge is a no-op when the target's local depth is 0, when
the target's and the split image's local depths differ, or when the
target bucket is non-empty on recheck; otherwise it deletes the target
bucket page via the buffer pool, redirects every directory slot that
pointed at the target or the image to the image page id with the local
depth decremented by one, and shrinks the global depth while `can_shrink`
holds; in particular, inserting keys 1..5 grows the global depth to 1 and
removing them all returns it to 0. -/
theorem merge_spec :
    (∀ (bsize : Nat) (hash : Nat → Nat) (s : ExtHash.HT) (k : Nat),
      s.dir.getLocalDepth (ExtHash.keyToDirectoryIndex hash s.dir k) = 0 →
      (ExtHash.mergeOp bsize hash s k).dir = s.dir ∧
      (ExtHash.mergeOp bsize hash s k).pages = s.pages) ∧
    (∀ (bsize : Nat) (hash : Nat → Nat) (s : ExtHash.HT) (k : Nat),
      s.dir.getLocalDepth (ExtHash.keyToDirectoryIndex hash s.dir k) ≠
        s.dir.getLocalDepth
          (s.dir.getSplitImageIndex (ExtHash.keyToDirectoryIndex hash s.dir k)) →
      (ExtHash.mergeOp bsize hash s k).dir = s.dir ∧
      (ExtHash.mergeOp bsize hash s k).pages = s.pages) ∧
    (∀ (bsize : Nat) (hash : Nat → Nat) (s : ExtHash.HT) (k : Nat) (tb : ExtHash.Bucket),
      ExtHash.findPage s.pages (ExtHash.keyToPageId hash s.dir k) = some tb →
      tb.isEmpty bsize = false →
      (ExtHash.mergeOp bsize hash s k).dir = s.dir ∧
      (ExtHash.mergeOp bsize hash s k).pages = s.pages) ∧
    (∀ (bsize : Nat) (hash : Nat → Nat) (s : ExtHash.HT) (k : Nat) (tb : ExtHash.Bucket),
      s.dir.size ≤ s.dir.bucketPageIds.length →
      s.dir.size ≤ s.dir.localDepths.length →
      s.dir.getLocalDepth (ExtHash.keyToDirectoryIndex hash s.dir k) ≠ 0 →
      s.dir.getLocalDepth (ExtHash.keyToDirectoryIndex hash s.dir k) =
        s.dir.getLocalDepth
          (s.dir.getSplitImageIndex (ExtHash.keyToDirectoryIndex hash s.dir k)) →
      ExtHash.findPage s.pages (ExtHash.keyToPageId hash s.dir k) = some tb →
      tb.isEmpty bsize = true →
      (ExtHash.mergeOp bsize hash s k).pages =
        ExtHash.pDel s.pages (ExtHash.keyToPageId hash s.dir k) ∧
      ((ExtHash.mergeOp bsize hash s k).dir.canShrink = false ∨
        (ExtHash.mergeOp bsize hash s k).dir.globalDepth = 0) ∧
      (∀ j, j < s.dir.size →
        (s.dir.getBucketPageId j = ExtHash.keyToPageId hash s.dir k ∨
          s.dir.getBucketPageId j =
            s.dir.getBucketPageId
              (s.dir.getSplitImageIndex (ExtHash.keyToDirectoryIndex hash s.dir k))) →
        (ExtHash.mergeOp bsize hash s k).dir.getBucketPageId j =
          s.dir.getBucketPageId
            (s.dir.getSplitImageIndex (ExtHash.keyToDirectoryIndex hash s.dir k)) ∧
        (ExtHash.mergeOp bsize hash s k).dir.getLocalDepth j =
          s.dir.getLocalDepth (ExtHash.keyToDirectoryIndex hash s.dir k) - 1)) ∧
    ((ExtHash.runOps 4 id (ExtHash.mkTable 4) ExtHash.growWorkload).dir.globalDepth = 1 ∧
      (ExtHash.runOps 4 id (ExtHash.mkTable 4) ExtHash.growShrinkWorkload).dir.globalDepth
        = 0) := by
  refine ⟨?_, ?_, ?_, fun bsize hash s k tb h1 h2 h3 h4 h5 h6 =>
    mergeOp_merge_case bsize hash s k tb h1 h2 h3 h4 h5 h6, by decide⟩
  · intro bsize hash s k h0
    constructor <;> simp [ExtHash.mergeOp, h0]
  · intro bsize hash s k hne
    constructor <;> simp [ExtHash.mergeOp, hne]
  · intro bsize hash s k tb hfind hne
    by_cases hg : (s.dir.getLocalDepth (ExtHash.keyToDirectoryIndex hash s.dir k) == 0 ||
        !(s.dir.getLocalDepth (ExtHash.keyToDirectoryIndex hash s.dir k) ==
          s.dir.getLocalDepth
            (s.dir.getSplitImageIndex (ExtHash.keyToDirectoryIndex hash s.dir k)))) = true
    · constructor <;> simp [ExtHash.mergeOp, hg]
    · rw [Bool.not_eq_true] at hg
      constructor <;> simp [ExtHash.mergeOp, hg, hfind, hne]

/-- Witness for C5 at a fresh table (target local depth 0, so Merge is a
no-op). -/
theorem merge_spec_witness :
    (ExtHash.mergeOp 4 id (ExtHash.mkTable 4) 0).dir = (ExtHash.mkTable 4).dir :=
  (merge_spec.1 4 id (ExtHash.mkTable 4) 0 (by decide)).1

/-- The exclusive walk never touches a transaction whose id is not in the
queue. -/
theorem walkX_preserves (tid rid : Nat) :
    ∀ (q : List LockMgr.Req) (txns : Nat → LockMgr.Txn) (t' : Nat),
      (∀ r ∈ q, r.tid ≠ t') →
      (LockMgr.walkX tid rid txns q).1 t' = txns t' := by
  intro q
  induction q with
  | nil => intro txns t' h; rfl
  | cons r rest ih =>
    intro txns t' h
    unfold LockMgr.walkX
    by_cases h1 : r.tid = tid
    · simp [h1]
    · simp only [h1, if_false]
      by_cases h2 : tid < r.tid
      · simp only [h2, if_true]
        rw [ih _ _ (fun x hx => h x (List.mem_cons_of_mem r hx))]
        unfold LockMgr.wound LockMgr.updT
        simp [Ne.symm (h r (List.mem_cons_self r rest))]
      · simp [h2]

/-- The shared walk never touches a transaction whose id is not in the
queue. -/
theorem walkS_preserves (tid rid : Nat) :
    ∀ (q : List LockMgr.Req) (txns : Nat → LockMgr.Txn) (cont : Bool) (t' : Nat),
      (∀ r ∈ q, r.tid ≠ t') →
      (LockMgr.walkS tid rid cont txns q).1 t' = txns t' := by
  intro q
  induction q with
  | nil => intro txns cont t' h; rfl
  | cons r rest ih =>
    intro txns cont t' h
    have hrest : ∀ x ∈ rest, x.tid ≠ t' := fun x hx => h x (List.mem_cons_of_mem r hx)
    unfold LockMgr.walkS
    by_cases h1 : r.tid = tid
    · simp [h1]
    · simp only [h1, if_false]
      by_cases hm : r.mode = LockMgr.LMode.exclusive
      · simp only [hm, if_true]
        by_cases h2 : tid < r.tid
        · simp only [h2, if_true]
          rw [ih _ _ _ hrest]
          unfold LockMgr.wound LockMgr.updT
          simp [Ne.symm (h r (List.mem_cons_self r rest))]
        · simp only [h2, if_false]
          rcases hw : LockMgr.walkS tid rid false txns rest with ⟨t1, q1, res1⟩
          have := ih txns false t' hrest
          rw [hw] at this
          simpa [hw] using this
      · simp only [hm, if_false]
        rcases hw : LockMgr.walkS tid rid cont txns rest with ⟨t1, q1, res1⟩
        have := ih txns cont t' hrest
        rw [hw] at this
        simpa [hw] using this

/-- The exclusive walk over an all-younger prefix wounds every entry of
the prefix (state ABORTED, rid erased from both lock sets, queue entry
erased) and grants the requester. -/
theorem walkX_all_younger (tid rid : Nat) :
    ∀ (pre : List LockMgr.Req) (own : LockMgr.Req) (post : List LockMgr.Req)
      (txns : Nat → LockMgr.Txn),
      own.tid = tid →
      (∀ r ∈ pre, tid < r.tid) →
      ((pre ++ own :: post).map LockMgr.Req.tid).Nodup →
      (LockMgr.walkX tid rid txns (pre ++ own :: post)).2.1 =
        { own with granted := true } :: post ∧
      (LockMgr.walkX tid rid txns (pre ++ own :: post)).2.2 = true ∧
      (∀ r ∈ pre,
        ((LockMgr.walkX tid rid txns (pre ++ own :: post)).1 r.tid).st =
          LockMgr.TxnState.aborted ∧
        ((LockMgr.walkX tid rid txns (pre ++ own :: post)).1 r.tid).sset =
          ((txns r.tid).sset).erase rid ∧
        ((LockMgr.walkX tid rid txns (pre ++ own :: post)).1 r.tid).xset =
          ((txns r.tid).xset).erase rid) := by
  intro pre
  induction pre with
  | nil =>
    intro own post txns hown hpre hnd
    refine ⟨?_, ?_, fun r hr => absurd hr (List.not_mem_nil r)⟩
    · unfold LockMgr.walkX
      simp [hown]
    · unfold LockMgr.walkX
      simp [hown]
  | cons p pre' ih =>
    intro own post txns hown hpre hnd
    have hplt : tid < p.tid := hpre p (List.mem_cons_self p pre')
    have hpne : ¬(p.tid = tid) := fun hc => absurd hc.symm (Nat.ne_of_lt hplt)
    have hstep : LockMgr.walkX tid rid txns ((p :: pre') ++ own :: post) =
        LockMgr.walkX tid rid (LockMgr.wound txns p.tid rid) (pre' ++ own :: post) := by
      show LockMgr.walkX tid rid txns (p :: (pre' ++ own :: post)) = _
      simp only [LockMgr.walkX]
      simp [hpne, hplt]
    rw [List.cons_append, List.map_cons, List.nodup_cons] at hnd
    obtain ⟨hnm, hnd'⟩ := hnd
    have hmain := ih own post (LockMgr.wound txns p.tid rid) hown
      (fun r hr => hpre r (List.mem_cons_of_mem p hr)) hnd'
    refine ⟨by rw [hstep]; exact hmain.1, by rw [hstep]; exact hmain.2.1, ?_⟩
    intro r hr
    rcases List.mem_cons.mp hr with hr | hr
    · subst hr
      rw [hstep]
      have hnin : ∀ x ∈ pre' ++ own :: post, x.tid ≠ r.tid := by
        intro x hx hc
        exact hnm (hc ▸ List.mem_map_of_mem LockMgr.Req.tid hx)
      rw [walkX_preserves tid rid _ _ _ hnin]
      unfold LockMgr.wound LockMgr.updT
      simp
    · have hrne : r.tid ≠ p.tid := by
        intro hc
        exact hnm (hc ▸ List.mem_map_of_mem LockMgr.Req.tid
          (List.mem_append_left _ hr))
      have hw : LockMgr.wound txns p.tid rid r.tid = txns r.tid := by
        unfold LockMgr.wound LockMgr.updT
        simp [hrne]
      obtain ⟨c1, c2, c3⟩ := hmain.2.2 r hr
      rw [hstep]
      exact ⟨c1, by rw [c2, hw], by rw [c3, hw]⟩

/-- The exclusive walk stops, without granting, at the first older entry,
leaving it and everything behind it in place. -/
theorem walkX_wait (tid rid : Nat) :
    ∀ (pre : List LockMgr.Req) (older : LockMgr.Req) (rest : List LockMgr.Req)
      (txns : Nat → LockMgr.Txn),
      (∀ r ∈ pre, tid < r.tid) →
      older.tid < tid →
      (LockMgr.walkX tid rid txns (pre ++ older :: rest)).2.1 = older :: rest ∧
      (LockMgr.walkX tid rid txns (pre ++ older :: rest)).2.2 = false := by
  intro pre
  induction pre with
  | nil =>
    intro older rest txns hpre hold
    have h1 : ¬(older.tid = tid) := Nat.ne_of_lt hold
    have h2 : ¬(tid < older.tid) := by omega
    constructor
    · show (LockMgr.walkX tid rid txns (older :: rest)).2.1 = older :: rest
      unfold LockMgr.walkX
      simp [h1, h2]
    · show (LockMgr.walkX tid rid txns (older :: rest)).2.2 = false
      unfold LockMgr.walkX
      simp [h1, h2]
  | cons p pre' ih =>
    intro older rest txns hpre hold
    have hplt : tid < p.tid := hpre p (List.mem_cons_self p pre')
    have hpne : ¬(p.tid = tid) := fun hc => absurd hc.symm (Nat.ne_of_lt hplt)
    have hstep : LockMgr.walkX tid rid txns ((p :: pre') ++ older :: rest) =
        LockMgr.walkX tid rid (LockMgr.wound txns p.tid rid) (pre' ++ older :: rest) := by
      show LockMgr.walkX tid rid txns (p :: (pre' ++ older :: rest)) = _
      simp only [LockMgr.walkX]
      simp [hpne, hplt]
    rw [hstep]
    exact ih older rest (LockMgr.wound txns p.tid rid)
      (fun r hr => hpre r (List.mem_cons_of_mem p hr)) hold

/-- Characterization of the shared walk: the request is granted iff the
continue flag survives every exclusive-mode entry ahead that is older than
the requester; exactly the younger exclusive entries ahead are erased from
the queue; shared-mode entries ahead never conflict. -/
theorem walkS_chars (tid rid : Nat) :
    ∀ (pre : List LockMgr.Req) (own : LockMgr.Req) (post : List LockMgr.Req)
      (txns : Nat → LockMgr.Txn) (cont : Bool),
      own.tid = tid →
      (∀ r ∈ pre, r.tid ≠ tid) →
      (LockMgr.walkS tid rid cont txns (pre ++ own :: post)).2.2 =
        (cont && pre.all (fun r => !(r.mode == LockMgr.LMode.exclusive && r.tid < tid))) ∧
      (LockMgr.walkS tid rid cont txns (pre ++ own :: post)).2.1 =
        pre.filter (fun r => !(r.mode == LockMgr.LMode.exclusive && tid < r.tid)) ++
          { own with granted :=
            (cont && pre.all (fun r => !(r.mode == LockMgr.LMode.exclusive && r.tid < tid))) }
            :: post := by
  intro pre
  induction pre with
  | nil =>
    intro own post txns cont hown hpre
    constructor
    · show (LockMgr.walkS tid rid cont txns (own :: post)).2.2 = _
      simp only [LockMgr.walkS]
      simp [hown]
    · show (LockMgr.walkS tid rid cont txns (own :: post)).2.1 = _
      simp only [LockMgr.walkS]
      simp [hown]
  | cons p pre' ih =>
    intro own post txns cont hown hpre
    have hpne : ¬(p.tid = tid) := hpre p (List.mem_cons_self p pre')
    have hpre' : ∀ r ∈ pre', r.tid ≠ tid := fun r hr => hpre r (List.mem_cons_of_mem p hr)
    by_cases hm : p.mode = LockMgr.LMode.exclusive
    · by_cases hlt : tid < p.tid
      · have hstep : LockMgr.walkS tid rid cont txns ((p :: pre') ++ own :: post) =
            LockMgr.walkS tid rid cont (LockMgr.wound txns p.tid rid) (pre' ++ own :: post) := by
          show LockMgr.walkS tid rid cont txns (p :: (pre' ++ own :: post)) = _
          simp only [LockMgr.walkS]
          simp [hpne, hm, hlt]
        obtain ⟨c1, c2⟩ := ih own post (LockMgr.wound txns p.tid rid) cont hown hpre'
        have hnotlt : ¬(p.tid < tid) := by omega
        constructor
        · rw [hstep, c1]
          simp [hm, hnotlt]
        · rw [hstep, c2]
          simp [hm, hlt, hnotlt]
      · have hplt : p.tid < tid := by
          rcases Nat.lt_trichotomy p.tid tid with h | h | h
          · exact h
          · exact absurd h hpne
          · exact absurd h hlt
        rcases hw : LockMgr.walkS tid rid false txns (pre' ++ own :: post) with ⟨t1, q1, res1⟩
        have hstep : LockMgr.walkS tid rid cont txns ((p :: pre') ++ own :: post) =
            (t1, p :: q1, res1) := by
          show LockMgr.walkS tid rid cont txns (p :: (pre' ++ own :: post)) = _
          simp only [LockMgr.walkS]
          simp [hpne, hm, hlt, hw]
        obtain ⟨c1, c2⟩ := ih own post txns false hown hpre'
        rw [hw] at c1 c2
        simp only at c1 c2
        constructor
        · rw [hstep]
          show res1 = _
          rw [c1]
          simp [hm, hplt]
        · rw [hstep]
          show p :: q1 = _
          rw [c2]
          simp [hm, hplt, show ¬(tid < p.tid) from hlt]
    · rcases hw : LockMgr.walkS tid rid cont txns (pre' ++ own :: post) with ⟨t1, q1, res1⟩
      have hmb : (p.mode == LockMgr.LMode.exclusive) = false := by simp [hm]
      have hstep : LockMgr.walkS tid rid cont txns ((p :: pre') ++ own :: post) =
          (t1, p :: q1, res1) := by
        show LockMgr.walkS tid rid cont txns (p :: (pre' ++ own :: post)) = _
        simp only [LockMgr.walkS]
        simp [hpne, hm, hw]
      obtain ⟨c1, c2⟩ := ih own post txns cont hown hpre'
      rw [hw] at c1 c2
      simp only at c1 c2
      constructor
      · rw [hstep]
        show res1 = _
        rw [c1]
        simp [hmb]
      · rw [hstep]
        show p :: q1 = _
        rw [c2]
        simp [hmb]

/-- The shared walk wounds exactly the younger exclusive-mode entries
ahead of the requester: their transactions become ABORTED with the rid
erased from both lock sets. -/
theorem walkS_wounds (tid rid : Nat) :
    ∀ (pre : List LockMgr.Req) (own : LockMgr.Req) (post : List LockMgr.Req)
      (txns : Nat → LockMgr.Txn) (cont : Bool),
      own.tid = tid →
      (∀ r ∈ pre, r.tid ≠ tid) →
      ((pre ++ own :: post).map LockMgr.Req.tid).Nodup →
      ∀ r ∈ pre, r.mode = LockMgr.LMode.exclusive → tid < r.tid →
        ((LockMgr.walkS tid rid cont txns (pre ++ own :: post)).1 r.tid).st =
          LockMgr.TxnState.aborted ∧
        ((LockMgr.walkS tid rid cont txns (pre ++ own :: post)).1 r.tid).sset =
          ((txns r.tid).sset).erase rid ∧
        ((LockMgr.walkS tid rid cont txns (pre ++ own :: post)).1 r.tid).xset =
          ((txns r.tid).xset).erase rid := by
  intro pre
  induction pre with
  | nil =>
    intro own post txns cont hown hpre hnd r hr
    exact absurd hr (List.not_mem_nil r)
  | cons p pre' ih =>
    intro own post txns cont hown hpre hnd r hr hrm hrlt
    have hpne : ¬(p.tid = tid) := hpre p (List.mem_cons_self p pre')
    have hpre' : ∀ x ∈ pre', x.tid ≠ tid := fun x hx => hpre x (List.mem_cons_of_mem p hx)
    rw [List.cons_append, List.map_cons, List.nodup_cons] at hnd
    obtain ⟨hnm, hnd'⟩ := hnd
    rcases List.mem_cons.mp hr with hre | hre
    · subst hre
      have hstep : LockMgr.walkS tid rid cont txns (r :: (pre' ++ own :: post)) =
          LockMgr.walkS tid rid cont (LockMgr.wound txns r.tid rid) (pre' ++ own :: post) := by
        simp only [LockMgr.walkS]
        simp [hpne, hrm, hrlt]
      have hnin : ∀ x ∈ pre' ++ own :: post, x.tid ≠ r.tid := by
        intro x hx hc
        exact hnm (hc ▸ List.mem_map_of_mem LockMgr.Req.tid hx)
      rw [List.cons_append, hstep, walkS_preserves tid rid _ _ _ _ hnin]
      unfold LockMgr.wound LockMgr.updT
      simp
    · have hrne : r.tid ≠ p.tid := by
        intro hc
        exact hnm (hc ▸ List.mem_map_of_mem LockMgr.Req.tid (List.mem_append_left _ hre))
      by_cases hm : p.mode = LockMgr.LMode.exclusive
      · by_cases hlt : tid < p.tid
        · have hstep : LockMgr.walkS tid rid cont txns (p :: (pre' ++ own :: post)) =
              LockMgr.walkS tid rid cont (LockMgr.wound txns p.tid rid) (pre' ++ own :: post) := by
            simp only [LockMgr.walkS]
            simp [hpne, hm, hlt]
          have hw : LockMgr.wound txns p.tid rid r.tid = txns r.tid := by
            unfold LockMgr.wound LockMgr.updT
            simp [hrne]
          obtain ⟨c1, c2, c3⟩ := ih own post (LockMgr.wound txns p.tid rid) cont hown hpre'
            hnd' r hre hrm hrlt
          rw [List.cons_append, hstep]
          exact ⟨c1, by rw [c2, hw], by rw [c3, hw]⟩
        · rcases hwk : LockMgr.walkS tid rid false txns (pre' ++ own :: post) with ⟨t1, q1, res1⟩
          have hstep : LockMgr.walkS tid rid cont txns (p :: (pre' ++ own :: post)) =
              (t1, p :: q1, res1) := by
            simp only [LockMgr.walkS]
            simp [hpne, hm, hlt, hwk]
          obtain ⟨c1, c2, c3⟩ := ih own post txns false hown hpre' hnd' r hre hrm hrlt
          rw [hwk] at c1 c2 c3
          simp only at c1 c2 c3
          rw [List.cons_append, hstep]
          exact ⟨c1, c2, c3⟩
      · rcases hwk : LockMgr.walkS tid rid cont txns (pre' ++ own :: post) with ⟨t1, q1, res1⟩
        have hstep : LockMgr.walkS tid rid cont txns (p :: (pre' ++ own :: post)) =
            (t1, p :: q1, res1) := by
          simp only [LockMgr.walkS]
          simp [hpne, hm, hwk]
        obtain ⟨c1, c2, c3⟩ := ih own post txns cont hown hpre' hnd' r hre hrm hrlt
        rw [hwk] at c1 c2 c3
        simp only at c1 c2 c3
        rw [List.cons_append, hstep]
        exact ⟨c1, c2, c3⟩

theorem lockShared_shrinking (s : LockMgr.LM) (tid rid : Nat)
    (h : (s.txns tid).st = LockMgr.TxnState.shrinking) :
    (LockMgr.lockShared s tid rid).2 =
      LockMgr.LockOutcome.thrown LockMgr.AbortReason.lockOnShrinking ∧
    (((LockMgr.lockShared s tid rid).1).txns tid).st = LockMgr.TxnState.aborted := by
  constructor <;> simp [LockMgr.lockShared, LockMgr.updT, h]

theorem lockExclusive_shrinking (s : LockMgr.LM) (tid rid : Nat)
    (h : (s.txns tid).st = LockMgr.TxnState.shrinking) :
    (LockMgr.lockExclusive s tid rid).2 =
      LockMgr.LockOutcome.thrown LockMgr.AbortReason.lockOnShrinking ∧
    (((LockMgr.lockExclusive s tid rid).1).txns tid).st = LockMgr.TxnState.aborted := by
  constructor <;> simp [LockMgr.lockExclusive, LockMgr.updT, h]

theorem lockUpgrade_shrinking (s : LockMgr.LM) (tid rid : Nat)
    (h : (s.txns tid).st = LockMgr.TxnState.shrinking) :
    (LockMgr.lockUpgrade s tid rid).2 =
      LockMgr.LockOutcome.thrown LockMgr.AbortReason.lockOnShrinking ∧
    (((LockMgr.lockUpgrade s tid rid).1).txns tid).st = LockMgr.TxnState.aborted := by
  constructor <;> simp [LockMgr.lockUpgrade, LockMgr.updT, h]

/-- Claim C4: admission and denial of the lock manager.  A SHRINKING
transaction's lock_shared/lock_exclusive/lock_upgrade abort it and raise
LOCK_ON_SHRINKING; lock_shared on a READ_UNCOMMITTED transaction aborts it
and raises LOCKSHARED_ON_READ_UNCOMMITTED; lock acquisitions on an
already-ABORTED transaction return false without raising or changing
state; unlock by a GROWING REPEATABLE_READ transaction moves it to
SHRINKING, so a subsequent lock_shared raises LOCK_ON_SHRINKING. -/
theorem lock_admission_spec :
    (∀ (s : LockMgr.LM) (tid rid : Nat),
      (s.txns tid).st = LockMgr.TxnState.shrinking →
      (LockMgr.lockShared s tid rid).2 =
        LockMgr.LockOutcome.thrown LockMgr.AbortReason.lockOnShrinking ∧
      (((LockMgr.lockShared s tid rid).1).txns tid).st = LockMgr.TxnState.aborted ∧
      (LockMgr.lockExclusive s tid rid).2 =
        LockMgr.LockOutcome.thrown LockMgr.AbortReason.lockOnShrinking ∧
      (((LockMgr.lockExclusive s tid rid).1).txns tid).st = LockMgr.TxnState.aborted ∧
      (LockMgr.lockUpgrade s tid rid).2 =
        LockMgr.LockOutcome.thrown LockMgr.AbortReason.lockOnShrinking ∧
      (((LockMgr.lockUpgrade s tid rid).1).txns tid).st = LockMgr.TxnState.aborted) ∧
    (∀ (s : LockMgr.LM) (tid rid : Nat),
      (s.txns tid).st = LockMgr.TxnState.growing →
      (s.txns tid).iso = LockMgr.IsoLevel.readUncommitted →
      (LockMgr.lockShared s tid rid).2 =
        LockMgr.LockOutcome.thrown LockMgr.AbortReason.lockSharedOnReadUncommitted ∧
      (((LockMgr.lockShared s tid rid).1).txns tid).st = LockMgr.TxnState.aborted) ∧
    (∀ (s : LockMgr.LM) (tid rid : Nat),
      (s.txns tid).st = LockMgr.TxnState.aborted →
      LockMgr.lockShared s tid rid = (s, LockMgr.LockOutcome.ok false) ∧
      LockMgr.lockExclusive s tid rid = (s, LockMgr.LockOutcome.ok false) ∧
      LockMgr.lockUpgrade s tid rid = (s, LockMgr.LockOutcome.ok false)) ∧
    (∀ (s : LockMgr.LM) (tid rid rid2 : Nat),
      (s.txns tid).st = LockMgr.TxnState.growing →
      (s.txns tid).iso = LockMgr.IsoLevel.repeatableRead →
      (((LockMgr.unlock s tid rid).1).txns tid).st = LockMgr.TxnState.shrinking ∧
      (LockMgr.lockShared ((LockMgr.unlock s tid rid).1) tid rid2).2 =
        LockMgr.LockOutcome.thrown LockMgr.AbortReason.lockOnShrinking) := by
  refine ⟨?_, ?_, ?_, ?_⟩
  · intro s tid rid h
    obtain ⟨a1, a2⟩ := lockShared_shrinking s tid rid h
    obtain ⟨b1, b2⟩ := lockExclusive_shrinking s tid rid h
    obtain ⟨c1, c2⟩ := lockUpgrade_shrinking s tid rid h
    exact ⟨a1, a2, b1, b2, c1, c2⟩
  · intro s tid rid hst hiso
    constructor <;> simp [LockMgr.lockShared, LockMgr.updT, hst, hiso]
  · intro s tid rid h
    refine ⟨?_, ?_, ?_⟩
    · simp [LockMgr.lockShared, h]
    · simp [LockMgr.lockExclusive, h]
    · simp [LockMgr.lockUpgrade, h]
  · intro s tid rid rid2 hst hiso
    have h1 : (((LockMgr.unlock s tid rid).1).txns tid).st = LockMgr.TxnState.shrinking := by
      simp [LockMgr.unlock, LockMgr.updT, hst, hiso]
    exact ⟨h1, (lockShared_shrinking _ tid rid2 h1).1⟩

/-- Witness for C4 on a concrete shrinking transaction. -/
theorem lock_admission_spec_witness :
    (LockMgr.lockShared
      { txns := fun _ => ⟨LockMgr.TxnState.shrinking, LockMgr.IsoLevel.repeatableRead, [], []⟩
        queues := fun _ => ⟨[], none⟩ } 1 0).2 =
      LockMgr.LockOutcome.thrown LockMgr.AbortReason.lockOnShrinking :=
  (lock_admission_spec.1
    { txns := fun _ => ⟨LockMgr.TxnState.shrinking, LockMgr.IsoLevel.repeatableRead, [], []⟩
      queues := fun _ => ⟨[], none⟩ } 1 0 rfl).1

/-- Claim C3: wound-wait.  For exclusive requests every preceding entry
conflicts: an all-younger prefix is fully wounded (ABORTED, rid erased
from both lock sets, queue entries erased) and the requester granted,
while the walk waits exactly at an older entry; for shared requests only
exclusive-mode entries ahead conflict, younger ones being wounded; and in
the concrete scenario T1 (id 1) holding X and T2 (id 2) waiting for X are
both wounded when T3 (id 0) requests X, and T3 proceeds. -/
theorem wound_wait_spec :
    (∀ (tid rid : Nat) (pre : List LockMgr.Req) (own : LockMgr.Req)
      (post : List LockMgr.Req) (txns : Nat → LockMgr.Txn),
      own.tid = tid →
      (∀ r ∈ pre, tid < r.tid) →
      ((pre ++ own :: post).map LockMgr.Req.tid).Nodup →
      (LockMgr.walkX tid rid txns (pre ++ own :: post)).2.1 =
        { own with granted := true } :: post ∧
      (LockMgr.walkX tid rid txns (pre ++ own :: post)).2.2 = true ∧
      (∀ r ∈ pre,
        ((LockMgr.walkX tid rid txns (pre ++ own :: post)).1 r.tid).st =
          LockMgr.TxnState.aborted ∧
        ((LockMgr.walkX tid rid txns (pre ++ own :: post)).1 r.tid).sset =
          ((txns r.tid).sset).erase rid ∧
        ((LockMgr.walkX tid rid txns (pre ++ own :: post)).1 r.tid).xset =
          ((txns r.tid).xset).erase rid)) ∧
    (∀ (tid rid : Nat) (pre : List LockMgr.Req) (older : LockMgr.Req)
      (rest : List LockMgr.Req) (txns : Nat → LockMgr.Txn),
      (∀ r ∈ pre, tid < r.tid) →
      older.tid < tid →
      (LockMgr.walkX tid rid txns (pre ++ older :: rest)).2.1 = older :: rest ∧
      (LockMgr.walkX tid rid txns (pre ++ older :: rest)).2.2 = false) ∧
    (∀ (tid rid : Nat) (pre : List LockMgr.Req) (own : LockMgr.Req)
      (post : List LockMgr.Req) (txns : Nat → LockMgr.Txn) (cont : Bool),
      own.tid = tid →
      (∀ r ∈ pre, r.tid ≠ tid) →
      (LockMgr.walkS tid rid cont txns (pre ++ own :: post)).2.2 =
        (cont && pre.all (fun r => !(r.mode == LockMgr.LMode.exclusive && r.tid < tid))) ∧
      (LockMgr.walkS tid rid cont txns (pre ++ own :: post)).2.1 =
        pre.filter (fun r => !(r.mode == LockMgr.LMode.exclusive && tid < r.tid)) ++
          { own with granted :=
            (cont && pre.all (fun r => !(r.mode == LockMgr.LMode.exclusive && r.tid < tid))) }
            :: post) ∧
    (∀ (tid rid : Nat) (pre : List LockMgr.Req) (own : LockMgr.Req)
      (post : List LockMgr.Req) (txns : Nat → LockMgr.Txn) (cont : Bool),
      own.tid = tid →
      (∀ r ∈ pre, r.tid ≠ tid) →
      ((pre ++ own :: post).map LockMgr.Req.tid).Nodup →
      ∀ r ∈ pre, r.mode = LockMgr.LMode.exclusive → tid < r.tid →
        ((LockMgr.walkS tid rid cont txns (pre ++ own :: post)).1 r.tid).st =
          LockMgr.TxnState.aborted ∧
        ((LockMgr.walkS tid rid cont txns (pre ++ own :: post)).1 r.tid).sset =
          ((txns r.tid).sset).erase rid ∧
        ((LockMgr.walkS tid rid cont txns (pre ++ own :: post)).1 r.tid).xset =
          ((txns r.tid).xset).erase rid) ∧
    (LockMgr.woundStep1.2 = LockMgr.LockOutcome.ok true ∧
      LockMgr.woundStep2.2 = LockMgr.LockOutcome.waiting ∧
      LockMgr.woundStep3.2 = LockMgr.LockOutcome.ok true ∧
      ((LockMgr.woundStep3.1).txns 1).st = LockMgr.TxnState.aborted ∧
      ((LockMgr.woundStep3.1).txns 1).sset = [] ∧
      ((LockMgr.woundStep3.1).txns 1).xset = [] ∧
      ((LockMgr.woundStep3.1).txns 2).st = LockMgr.TxnState.aborted ∧
      ((LockMgr.woundStep3.1).txns 2).sset = [] ∧
      ((LockMgr.woundStep3.1).txns 2).xset = [] ∧
      ((LockMgr.woundStep3.1).queues 0).reqs =
        [⟨0, LockMgr.LMode.exclusive, true⟩] ∧
      ((LockMgr.woundStep3.1).txns 0).xset = [0]) :=
  ⟨fun tid rid pre own post txns h1 h2 h3 =>
      walkX_all_younger tid rid pre own post txns h1 h2 h3,
    fun tid rid pre older rest txns h1 h2 =>
      walkX_wait tid rid pre older rest txns h1 h2,
    fun tid rid pre own post txns cont h1 h2 =>
      walkS_chars tid rid pre own post txns cont h1 h2,
    fun tid rid pre own post txns cont h1 h2 h3 =>
      walkS_wounds tid rid pre own post txns cont h1 h2 h3,
    by decide⟩

/-- Witness for C3: the exclusive walk over the scenario queue wounds
transaction 2 and grants transaction 0. -/
theorem wound_wait_spec_witness :
    (LockMgr.walkX 0 7
        (fun _ => ⟨LockMgr.TxnState.growing, LockMgr.IsoLevel.repeatableRead, [7], [7]⟩)
        ([⟨2, LockMgr.LMode.exclusive, true⟩] ++ ⟨0, LockMgr.LMode.exclusive, false⟩ :: [])).2.2
      = true :=
  (wound_wait_spec.1 0 7 [⟨2, LockMgr.LMode.exclusive, true⟩]
    ⟨0, LockMgr.LMode.exclusive, false⟩ []
    (fun _ => ⟨LockMgr.TxnState.growing, LockMgr.IsoLevel.repeatableRead, [7], [7]⟩)
    rfl (by decide) (by decide)).2.1

/-- Witness for C10 on a concrete pinned page. -/
theorem delete_page_always_deallocates_witness :
    (BPool.deletePg
      { BPool.mkBPM 1 1 0 with
          frames := [⟨some 0, 1, false, 0⟩], freeList := [], pageTable := [(0, 0)] }
      0).1 = false :=
  (delete_page_always_deallocates.2
    { BPool.mkBPM 1 1 0 with
        frames := [⟨some 0, 1, false, 0⟩], freeList := [], pageTable := [(0, 0)] }
    0 0 rfl (by decide)).1


